import Mathlib

/-!
Verification development for the MuleEngine-Pro money-muling detection core.

The Python sources under backend/app are shallowly embedded here:
* core/scoring.py            -> RiskWeights, calculate_final_score
* services/graph_service.py  -> buildGraph (networkx DiGraph), detect_cycles
* services/pattern_service.py-> detect_smurfing, detect_shell_networks,
                                check_redistribution_speed, get_account_type
* services/analysis_engine.py-> run_full_analysis

Modelling conventions, fixed once for the whole file:
* Python floats are modelled as rationals; timestamps are absolute instants in
  seconds (the sources only subtract, compare and divide them by 3600).
* Python round(x, 2) is modelled as rnd2 below.  Python rounds ties to even
  while Mathlib's round rounds ties up; the two differ only when x*100 lands
  exactly on an integer plus one half, which no theorem or evaluation below
  depends on.
* cov = std/mean < c tests (std being a float sqrt of the variance) are
  modelled by the equivalent square-free test variance < (c*mean)^2, valid
  because both sides are nonnegative and mean > 0 is checked first.
* Python set iteration order is implementation defined; where the source
  iterates a set (all_accounts in the engine) we fix first-appearance order.
  Only membership, cardinality and tie order of the final stable sort depend
  on it, and no claim below depends on those orders.
* detect_shell_networks picks its BFS start nodes with random.sample; the
  sampled list is made an explicit argument startNodes, and ValidSample says
  a list is a possible outcome of that call.
* The unbounded Python while-loops are written with an explicit fuel argument
  that strictly exceeds the number of iterations the loop can perform
  (each DFS/BFS iteration pops one frame; the number of frames ever pushed is
  bounded by the successor fan-out (at most the edge count E) raised to the
  depth bound, so (E+2)^7 pops can never be exhausted).  Running out of fuel
  would return the state reached so far, exactly like hitting the loop cap.
* processing_time_seconds is wall-clock time at the boundary; every claim
  excludes it, so AnalysisSummary keeps only the three counters.
-/

set_option allowUnsafeReducibility true

attribute [local semireducible] Rat.add Rat.sub Rat.mul Rat.div Rat.inv Rat.neg

set_option maxRecDepth 200000

/-- Lexicographic strict comparison of character lists by code point, the
order Python sorted() uses on strings.  (The library comparison on String is
iterator-based and does not evaluate inside proofs, so it is spelled out.) -/
def lexLt : List Char → List Char → Bool
  | _, [] => false
  | [], _ :: _ => true
  | a :: as, b :: bs =>
    if a.toNat < b.toNat then true
    else if b.toNat < a.toNat then false
    else lexLt as bs

/-- Code-point order on strings, as a total preorder usable for sorting. -/
def strLe (a b : String) : Prop := lexLt b.data a.data = false

instance (a b : String) : Decidable (strLe a b) := by
  unfold strLe; infer_instance

/-- A transaction row of the validated dataframe handed to the engine:
transaction_id, sender_id, receiver_id, amount, timestamp (seconds). -/
structure Tx where
  transaction_id : String
  sender_id : String
  receiver_id : String
  amount : ℚ
  timestamp : ℚ
deriving DecidableEq, Repr

/-- Python round(x, 2): round to two decimal places. -/
def rnd2 (x : ℚ) : ℚ := (round (x * 100) : ℤ) / 100

/-- Python max() over a list (max of a nonempty list; 0 for [] which the
sources never reach). -/
def listMax : List ℚ → ℚ
  | [] => 0
  | x :: xs => xs.foldl max x

/-- Python min() over a list (0 for [], unreachable in the sources). -/
def listMin : List ℚ → ℚ
  | [] => 0
  | x :: xs => xs.foldl min x

namespace RiskWeights

def CYCLE_INVOLVEMENT : ℚ := 85
def SMURFING_FAST_REDI : ℚ := 75
def SMURFING_DELAYED_REDI : ℚ := 55
def SMURFING_SLOW_REDI : ℚ := 40
def SHELL_ACCOUNT : ℚ := 60
def FAST_PASS_THROUGH : ℚ := 13/10
def DELAYED_PASS_THROUGH : ℚ := 11/10
def FAN_THRESHOLD : Nat := 10
def WINDOW_HOURS : ℚ := 72
def MAX_SHELL_TX : Nat := 3
def MIN_SCORE : ℚ := 0
def MAX_SCORE : ℚ := 100
def MERCHANT_MAX_SCORE : ℚ := 35
def PAYROLL_MAX_SCORE : ℚ := 30

end RiskWeights

/-- core/scoring.py calculate_final_score: fuse pattern base scores and
temporal multipliers into the final suspicion score, applying the class caps
and the final clamp to the 0..100 range. -/
def calculate_final_score (base_scores : List ℚ) (multipliers : List ℚ)
    (account_type : String) : ℚ :=
  if base_scores = [] then 0
  else
    let primary_score := listMax base_scores
    let supporting_signals := (base_scores.sum - primary_score) * (2/10)
    let combined_score := primary_score + supporting_signals
    let temporal_multiplier := multipliers.foldl (fun a m => a * m) 1
    let fs := combined_score * temporal_multiplier
    let fs :=
      if account_type = "merchant" then min fs RiskWeights.MERCHANT_MAX_SCORE
      else if account_type = "payroll" then min fs RiskWeights.PAYROLL_MAX_SCORE
      else fs
    min RiskWeights.MAX_SCORE (max RiskWeights.MIN_SCORE (rnd2 fs))

/-- An edge of the networkx DiGraph, carrying the transaction metadata that
graph_service attaches with add_edge. -/
structure GEdge where
  src : String
  dst : String
  transaction_id : String
  amount : ℚ
  timestamp : ℚ
deriving DecidableEq, Repr

/-- networkx DiGraph.add_edge semantics: a repeated (src, dst) pair keeps the
edge's position but overwrites its attribute dictionary; a fresh pair is
appended in insertion order. -/
def addEdge (es : List GEdge) (e : GEdge) : List GEdge :=
  if es.any (fun e0 => e0.src = e.src && e0.dst = e.dst) then
    es.map (fun e0 => if e0.src = e.src && e0.dst = e.dst then e else e0)
  else es ++ [e]

def txEdge (t : Tx) : GEdge :=
  ⟨t.sender_id, t.receiver_id, t.transaction_id, t.amount, t.timestamp⟩

def buildEdges (df : List Tx) : List GEdge :=
  df.foldl (fun es t => addEdge es (txEdge t)) []

/-- networkx node bookkeeping: add_edge(u, v) registers u and then v, each
only on first appearance. -/
def insertNode (ns : List String) (v : String) : List String :=
  if v ∈ ns then ns else ns ++ [v]

def buildNodes (df : List Tx) : List String :=
  df.foldl (fun ns t => insertNode (insertNode ns t.sender_id) t.receiver_id) []

/-- The directed graph graph_service builds from the dataframe. -/
structure FGraph where
  nodes : List String
  edges : List GEdge
deriving DecidableEq, Repr

def buildGraph (df : List Tx) : FGraph :=
  ⟨buildNodes df, buildEdges df⟩

/-- G.successors(v): adjacency keys of v in pair insertion order. -/
def successors (G : FGraph) (v : String) : List String :=
  (G.edges.filter (fun e => e.src = v)).map (fun e => e.dst)

/-- DiGraph.in_degree: number of distinct predecessors. -/
def inDegree (G : FGraph) (v : String) : Nat :=
  (G.edges.filter (fun e => e.dst = v)).length

/-- DiGraph.out_degree: number of distinct successors. -/
def outDegree (G : FGraph) (v : String) : Nat :=
  (G.edges.filter (fun e => e.src = v)).length

def hasEdge (G : FGraph) (u v : String) : Prop :=
  ∃ e ∈ G.edges, e.src = u ∧ e.dst = v

instance (G : FGraph) (u v : String) : Decidable (hasEdge G u v) := by
  unfold hasEdge; infer_instance

/-- Python sorted() on a list of account ids (the canonical cycle key). -/
def sortKey (l : List String) : List String :=
  l.insertionSort strLe

/-- A frame of the explicit DFS stack in detect_cycles: current vertex, the
path from the start node, and the (shared, then copied) visited set. -/
structure CFrame where
  cur : String
  path : List String
  visited : List String
deriving DecidableEq, Repr

/-- The accumulating state of detect_cycles: emitted cycles and the global
set of canonical keys already seen. -/
structure CState where
  cycles : List (List String)
  visGlob : List (List String)
deriving DecidableEq, Repr

/-- The body of the for-neighbor loop in detect_cycles, one neighbor at a
time: possibly emit the current path as a cycle, then possibly push a new
frame.  The visited set mutates across the neighbors of one frame and each
pushed frame receives a copy of its current value. -/
def visitNeighbors (start : String) (path : List String) (minLen maxLen : Nat) :
    List String → CState → List String → List CFrame →
    CState × List String × List CFrame
  | [], st, vis, pushed => (st, vis, pushed)
  | n :: ns, st, vis, pushed =>
    let st :=
      if n = start ∧ minLen ≤ path.length ∧ path.length ≤ maxLen then
        if sortKey path ∈ st.visGlob then st
        else ⟨st.cycles ++ [path], st.visGlob ++ [sortKey path]⟩
      else st
    if n ∉ vis ∧ path.length < maxLen then
      visitNeighbors start path minLen maxLen ns st (vis ++ [n])
        (pushed ++ [⟨n, path ++ [n], vis ++ [n]⟩])
    else visitNeighbors start path minLen maxLen ns st vis pushed

/-- The while-loop of detect_cycles for one start node.  The Python stack
pops from the end; the stack is stored reversed so that the head is the top.
fuel strictly exceeds the number of pops that can ever occur (see header). -/
def cycleLoop (G : FGraph) (start : String) (minLen maxLen maxCycles : Nat) :
    Nat → List CFrame → CState → CState
  | 0, _, st => st
  | _ + 1, [], st => st
  | fuel + 1, f :: rest, st =>
    if st.cycles.length < maxCycles then
      if maxLen < f.path.length then
        cycleLoop G start minLen maxLen maxCycles fuel rest st
      else
        let r := visitNeighbors start f.path minLen maxLen
          (successors G f.cur) st f.visited []
        cycleLoop G start minLen maxLen maxCycles fuel
          (r.2.2.reverse ++ rest) r.1
    else st

def MAX_CYCLES : Nat := 1000

/-- graph_service.detect_cycles: hub-anchored depth-limited DFS emitting
simple cycles of length minLen..maxLen, deduplicated by sorted vertex tuple,
globally capped at MAX_CYCLES. -/
def detect_cycles (G : FGraph) (minLen maxLen : Nat) :
    List (List String) :=
  let degree_threshold := max 2 (G.nodes.length / 200)
  let high_degree_nodes := G.nodes.filter
    (fun v => degree_threshold ≤ inDegree G v + outDegree G v)
  let fuel := (G.edges.length + 2) ^ 7
  let final := high_degree_nodes.foldl
    (fun st v =>
      if MAX_CYCLES ≤ st.cycles.length then st
      else cycleLoop G v minLen maxLen MAX_CYCLES fuel [⟨v, [v], [v]⟩] st)
    ⟨[], []⟩
  final.cycles

/-- Rows with the given receiver, in dataframe order. -/
def incomingTx (df : List Tx) (a : String) : List Tx :=
  df.filter (fun t => t.receiver_id = a)

/-- Rows with the given sender, in dataframe order. -/
def outgoingTx (df : List Tx) (a : String) : List Tx :=
  df.filter (fun t => t.sender_id = a)

/-- pandas Series.nunique: number of distinct values. -/
def nunique (l : List String) : Nat := l.dedup.length

/-- Mean of a list of rationals (pandas mean; 0 for [], unreachable). -/
def listMean (l : List ℚ) : ℚ :=
  if l.isEmpty then 0 else l.sum / l.length

/-- Population variance as computed inline by pattern_service. -/
def listVariance (l : List ℚ) : ℚ :=
  if l.isEmpty then 0
  else (l.map (fun x => (x - listMean l) ^ 2)).sum / l.length

/-- One fan-in / fan-out evidence record of detect_smurfing. -/
structure FanRec where
  account_id : String
  counterparty_count : Nat
  time_window_hours : ℚ
  transaction_count : Nat
  avg_amount : ℚ
deriving DecidableEq, Repr

structure SmurfResult where
  fan_in : List FanRec
  fan_out : List FanRec
  is_merchant_trap : List String
deriving DecidableEq, Repr

/-- max timestamp minus min timestamp over a group of rows, in seconds. -/
def groupSpanSec (g : List Tx) : ℚ :=
  listMax (g.map (fun t => t.timestamp)) - listMin (g.map (fun t => t.timestamp))

/-- pandas groupby iterates its keys in sorted order. -/
def groupKeys (l : List String) : List String :=
  (l.dedup).insertionSort strLe

/-- pattern_service.detect_smurfing: a fan-in hit for every receiver with at
least FAN_THRESHOLD distinct senders whose incoming rows span at most
WINDOW_HOURS; symmetrically for fan-out; over-threshold accounts whose span
exceeds the window land in is_merchant_trap (fan-in traps first). -/
def detect_smurfing (df : List Tx) : SmurfResult :=
  let fanIn := (groupKeys (df.map (fun t => t.receiver_id))).filterMap
    (fun r =>
      let g := incomingTx df r
      let us := nunique (g.map (fun t => t.sender_id))
      if RiskWeights.FAN_THRESHOLD ≤ us ∧
          groupSpanSec g ≤ RiskWeights.WINDOW_HOURS * 3600 then
        some ⟨r, us, groupSpanSec g / 3600, g.length,
          listMean (g.map (fun t => t.amount))⟩
      else none)
  let fanOut := (groupKeys (df.map (fun t => t.sender_id))).filterMap
    (fun s =>
      let g := outgoingTx df s
      let ur := nunique (g.map (fun t => t.receiver_id))
      if RiskWeights.FAN_THRESHOLD ≤ ur ∧
          groupSpanSec g ≤ RiskWeights.WINDOW_HOURS * 3600 then
        some ⟨s, ur, groupSpanSec g / 3600, g.length,
          listMean (g.map (fun t => t.amount))⟩
      else none)
  let trapIn := (groupKeys (df.map (fun t => t.receiver_id))).filter
    (fun r =>
      let g := incomingTx df r
      RiskWeights.FAN_THRESHOLD ≤ nunique (g.map (fun t => t.sender_id)) ∧
        ¬ groupSpanSec g ≤ RiskWeights.WINDOW_HOURS * 3600)
  let trapOut := (groupKeys (df.map (fun t => t.sender_id))).filter
    (fun s =>
      let g := outgoingTx df s
      RiskWeights.FAN_THRESHOLD ≤ nunique (g.map (fun t => t.receiver_id)) ∧
        ¬ groupSpanSec g ≤ RiskWeights.WINDOW_HOURS * 3600)
  ⟨fanIn, fanOut, trapIn ++ trapOut⟩

/-- Total activity of an account: rows as sender plus rows as receiver
(self-loop rows count twice, as in the incremental dict of the source). -/
def accountActivity (df : List Tx) (a : String) : Nat :=
  (outgoingTx df a).length + (incomingTx df a).length

/-- Shell candidate: 2 to MAX_SHELL_TX total transactions. -/
def shellCandidate (df : List Tx) (a : String) : Bool :=
  decide (2 ≤ accountActivity df a ∧ accountActivity df a ≤ RiskWeights.MAX_SHELL_TX)

/-- A recorded shell chain: path, hop count, and number of shell-candidate
pathInterior vertices. -/
structure ShellChain where
  path : List String
  chain_length : Nat
  shell_count : Nat
deriving DecidableEq, Repr

def pathInterior (path : List String) : List String := (path.drop 1).dropLast

/-- The for-next_node loop of the shell BFS: push the first 5 unvisited
successors, marking them visited at push time. -/
def pushSuccessors (path : List String) :
    List String → List String → List (String × List String) →
    List String × List (String × List String)
  | [], vis, pushed => (vis, pushed)
  | n :: ns, vis, pushed =>
    if n ∈ vis then pushSuccessors path ns vis pushed
    else pushSuccessors path ns (vis ++ [n]) (pushed ++ [(n, path ++ [n])])

/-- The while-loop of detect_shell_networks for one start node: FIFO queue,
record a path of at least 4 vertices with a shell-candidate pathInterior and stop
extending it, otherwise extend up to depth 5 with branching capped at 5. -/
def shellLoop (G : FGraph) (isShell : String → Bool)
    (maxDepth maxChains : Nat) :
    Nat → List (String × List String) → List String → List ShellChain →
    List ShellChain
  | 0, _, _, chains => chains
  | _ + 1, [], _, chains => chains
  | fuel + 1, (cur, path) :: rest, vis, chains =>
    if chains.length < maxChains then
      if 4 ≤ path.length ∧ (pathInterior path).any isShell then
        shellLoop G isShell maxDepth maxChains fuel rest vis
          (chains ++ [⟨path, path.length - 1, (pathInterior path).countP isShell⟩])
      else if path.length < maxDepth then
        let r := pushSuccessors path ((successors G cur).take 5) vis []
        shellLoop G isShell maxDepth maxChains fuel (rest ++ r.2) r.1 chains
      else shellLoop G isShell maxDepth maxChains fuel rest vis chains
    else chains

def MAX_CHAINS : Nat := 500

/-- pattern_service.detect_shell_networks.  startNodes is the list produced
by random.sample over the graph's nodes (see ValidSample); everything after
that choice is deterministic. -/
def detect_shell_networks (df : List Tx) (startNodes : List String) :
    List ShellChain :=
  let G := buildGraph df
  let fuel := (G.edges.length + 2) ^ 3
  startNodes.foldl
    (fun chains start =>
      if MAX_CHAINS ≤ chains.length then chains
      else shellLoop G (shellCandidate df) 5 MAX_CHAINS fuel
        [(start, [start])] [start] chains)
    []

/-- random.sample(nodes, min(|nodes|, 100)) returns some list of distinct
nodes of that length; ValidSample characterises its possible values. -/
def ValidSample (G : FGraph) (s : List String) : Prop :=
  s.Nodup ∧ (∀ v ∈ s, v ∈ G.nodes) ∧ s.length = min G.nodes.length 100

instance (G : FGraph) (s : List String) : Decidable (ValidSample G s) := by
  unfold ValidSample; infer_instance

/-- Timestamps of the given rows sorted ascending (ties collapse, so any
pandas sort order yields the same value). -/
def sortedTimestamps (l : List Tx) : List ℚ :=
  (l.map (fun t => t.timestamp)).insertionSort (fun a b => a ≤ b)

/-- Consecutive inter-arrival intervals, converted from seconds to hours. -/
def intervalsHours (ts : List ℚ) : List ℚ :=
  (ts.zip ts.tail).map (fun p => (p.2 - p.1) / 3600)

/-- pattern_service.check_redistribution_speed: multiplier and evidence tag
from the gap between the earliest incoming and earliest outgoing timestamps.
iloc[0] of the timestamp-sorted rows reads the minimal timestamp. -/
def check_redistribution_speed (df : List Tx) (account_id : String) :
    ℚ × String :=
  let in_tx := incomingTx df account_id
  let out_tx := outgoingTx df account_id
  if in_tx.isEmpty ∨ out_tx.isEmpty then (1, "no_pass_through")
  else
    let first_in := listMin (in_tx.map (fun t => t.timestamp))
    let first_out := listMin (out_tx.map (fun t => t.timestamp))
    if first_out ≤ first_in then (1, "no_suspicious_delay")
    else
      let d := first_out - first_in
      if d ≤ 24 * 3600 then
        (RiskWeights.FAST_PASS_THROUGH, "fast_redistribution_under_24h")
      else if d ≤ 96 * 3600 then
        (RiskWeights.DELAYED_PASS_THROUGH, "delayed_redistribution_24-96h")
      else (1, "normal_timing")

/-- pattern_service._is_merchant_velocity: with at least 5 rows on the given
side and at least 4 intervals, the coefficient of variation of the
inter-arrival hours must be below 1.5 (tested square-free); fewer than 4
intervals or a nonpositive mean return True. -/
def is_merchant_velocity (df : List Tx) (a : String) (role : String) : Prop :=
  let txs := if role = "receiver" then incomingTx df a else outgoingTx df a
  if txs.length < 5 then False
  else
    let iv := intervalsHours (sortedTimestamps txs)
    if 4 ≤ iv.length then
      if 0 < listMean iv then
        listVariance iv < ((3/2) * listMean iv) ^ 2
      else True
    else True

instance (df : List Tx) (a role : String) :
    Decidable (is_merchant_velocity df a role) := by
  unfold is_merchant_velocity; infer_instance

/-- pattern_service._is_payroll_pattern: at least 8 outgoing rows, and either
60 percent of the intervals within 30 percent of a common period
(24/48/72/168 h) or a coefficient of variation below 1.2. -/
def is_payroll_pattern (df : List Tx) (a : String) : Prop :=
  let txs := outgoingTx df a
  if txs.length < 8 then False
  else
    let iv := intervalsHours (sortedTimestamps txs)
    if 3 ≤ iv.length then
      (∃ target ∈ [(24:ℚ), 48, 72, 168],
        (iv.countP (fun i => decide (|i - target| < target * (3/10))) : ℚ) ≥
          (iv.length : ℚ) * (3/5)) ∨
      (0 < listMean iv ∧ listVariance iv < ((6/5) * listMean iv) ^ 2)
    else False

instance (df : List Tx) (a : String) : Decidable (is_payroll_pattern df a) := by
  unfold is_payroll_pattern; infer_instance

/-- pattern_service._has_diverse_sources: distinct senders over incoming row
count above 0.4. -/
def has_diverse_sources (df : List Tx) (a : String) : Prop :=
  let incoming := incomingTx df a
  if 0 < incoming.length then
    (nunique (incoming.map (fun t => t.sender_id)) : ℚ) / incoming.length > 2/5
  else False

instance (df : List Tx) (a : String) : Decidable (has_diverse_sources df a) := by
  unfold has_diverse_sources; infer_instance

/-- pattern_service._has_consistent_amounts: at least 5 outgoing amounts with
coefficient of variation below 0.5 (square-free; nonpositive mean fails). -/
def has_consistent_amounts (df : List Tx) (a : String) : Prop :=
  let txs := outgoingTx df a
  if txs.length < 5 then False
  else
    let amounts := txs.map (fun t => t.amount)
    0 < listMean amounts ∧
      listVariance amounts < ((1/2) * listMean amounts) ^ 2

instance (df : List Tx) (a : String) :
    Decidable (has_consistent_amounts df a) := by
  unfold has_consistent_amounts; infer_instance

/-- pattern_service.get_account_type: ordered classification rules; a rule
whose volume gate passes but whose behavioural predicate fails falls through
to the next rule, exactly as the nested ifs of the source do. -/
def get_account_type (df : List Tx) (account_id : String) : String :=
  let in_degree := (incomingTx df account_id).length
  let out_degree := (outgoingTx df account_id).length
  let unique_in := nunique ((incomingTx df account_id).map (fun t => t.sender_id))
  let unique_out := nunique ((outgoingTx df account_id).map (fun t => t.receiver_id))
  if 30 ≤ in_degree ∧ 15 ≤ unique_in ∧ unique_out ≤ 5 ∧
      is_merchant_velocity df account_id "receiver" then "merchant"
  else if 25 ≤ in_degree ∧ 12 ≤ unique_in ∧ has_diverse_sources df account_id
    then "merchant"
  else if 20 ≤ out_degree ∧ 12 ≤ unique_out ∧ is_payroll_pattern df account_id
    then "payroll"
  else if 15 ≤ out_degree ∧ 8 ≤ unique_out ∧ is_payroll_pattern df account_id ∧
      has_consistent_amounts df account_id then "payroll"
  else if in_degree + out_degree ≤ RiskWeights.MAX_SHELL_TX then "shell"
  else "standard"

/-- models/schemas.py SuspiciousAccount. -/
structure SuspiciousAccount where
  account_id : String
  suspicion_score : ℚ
  detected_patterns : List String
  ring_id : Option String
deriving DecidableEq, Repr

/-- models/schemas.py FraudRing. -/
structure FraudRing where
  ring_id : String
  member_accounts : List String
  pattern_type : String
  risk_score : ℚ
deriving DecidableEq, Repr

/-- models/schemas.py AnalysisSummary without the wall-clock member. -/
structure AnalysisSummary where
  total_accounts_analyzed : Nat
  suspicious_accounts_flagged : Nat
  fraud_rings_detected : Nat
deriving DecidableEq, Repr

/-- models/schemas.py AnalysisResponse (the output envelope). -/
structure AnalysisResponse where
  suspicious_accounts : List SuspiciousAccount
  fraud_rings : List FraudRing
  summary : AnalysisSummary
deriving DecidableEq, Repr

/-- The per-account record the engine keeps in account_data. -/
structure AccData where
  acc : String
  score : ℚ
  patterns : List String
  ring_id : Option String
  acc_type : String
deriving DecidableEq, Repr

/-- set(df.sender_id) union set(df.receiver_id); the Python set order is
implementation defined, we fix the order List.dedup produces. -/
def allAccounts (df : List Tx) : List String :=
  ((df.map (fun t => t.sender_id)) ++ (df.map (fun t => t.receiver_id))).dedup

def shellTag (n : Nat) : String := "shell_chain_" ++ toString n ++ "_hops"

def cycleTag (n : Nat) : String := "cycle_length_" ++ toString n

/-- The scoring body of the engine's per-account loop: collect base scores,
pattern tags and multipliers from the three detectors, then fuse them with
calculate_final_score. -/
def accountEntry (df : List Tx) (cycles : List (List String))
    (smurf : SmurfResult) (chains : List ShellChain) (acc : String) : AccData :=
  let account_type := get_account_type df acc
  let cyclePart : List ℚ × List String :=
    match cycles.find? (fun c => c.contains acc) with
    | some c => ([RiskWeights.CYCLE_INVOLVEMENT], [cycleTag c.length])
    | none => ([], [])
  let fanHit := smurf.fan_in.any (fun r => r.account_id = acc) ∨
    smurf.fan_out.any (fun r => r.account_id = acc)
  let smurfPart : List ℚ × List String × List ℚ :=
    if fanHit then
      let velocity_mult := (check_redistribution_speed df acc).1
      if 1 < velocity_mult then
        if RiskWeights.FAST_PASS_THROUGH ≤ velocity_mult then
          ([RiskWeights.SMURFING_FAST_REDI], ["fast_redistribution_smurfing"],
            [velocity_mult])
        else
          ([RiskWeights.SMURFING_DELAYED_REDI],
            ["delayed_redistribution_smurfing"], [velocity_mult])
      else ([RiskWeights.SMURFING_SLOW_REDI], ["high_volume_account"], [])
    else ([], [], [])
  let shellPart : List ℚ × List String :=
    chains.foldl
      (fun bp ch =>
        if ch.path.contains acc then
          (bp.1 ++ (if (pathInterior ch.path).contains acc then
              [RiskWeights.SHELL_ACCOUNT] else []),
            bp.2 ++ [shellTag ch.chain_length])
        else bp)
      ([], [])
  let base_scores := cyclePart.1 ++ smurfPart.1 ++ shellPart.1
  let patterns := cyclePart.2 ++ smurfPart.2.1 ++ shellPart.2
  let multipliers := smurfPart.2.2
  ⟨acc, calculate_final_score base_scores multipliers account_type,
    patterns, none, account_type⟩

/-- The engine keeps an account iff it survives the merchant/payroll gate
(score above 75) and the reporting threshold (score above 20). -/
def keepAccount (e : AccData) : Bool :=
  if (e.acc_type = "merchant" ∨ e.acc_type = "payroll") ∧ e.score ≤ 75 then
    false
  else decide (20 < e.score)

/-- account_data after the per-account loop, in all_accounts order. -/
def engineAccounts (df : List Tx) (cycles : List (List String))
    (smurf : SmurfResult) (chains : List ShellChain) : List AccData :=
  (allAccounts df).filterMap
    (fun acc =>
      let e := accountEntry df cycles smurf chains acc
      if keepAccount e then some e else none)

/-- Python str(n).zfill(3). -/
def zfill3 (n : Nat) : String :=
  if n < 10 then "00" ++ toString n
  else if n < 100 then "0" ++ toString n
  else toString n

def mkRingId (n : Nat) : String := "RING_" ++ zfill3 n

/-- The mutable state of the engine's ring-formation passes. -/
structure RingState where
  rings : List FraudRing
  mapped : List String
  counter : Nat
  data : List AccData
deriving DecidableEq, Repr

/-- Allocate the next ring id over the given member list: average the stored
scores of members present in account_data, assign the ring id to those
members, and record every member in ring_members_mapped. -/
def applyRing (members : List String) (ptype : String) (st : RingState) :
    RingState :=
  let counter := st.counter + 1
  let rid := mkRingId counter
  let member_scores := members.filterMap
    (fun a => (st.data.find? (fun d => d.acc = a)).map (fun d => d.score))
  let raw := if member_scores.isEmpty then 0
    else member_scores.sum / member_scores.length
  let risk := min 100 (rnd2 raw)
  ⟨st.rings ++ [⟨rid, members, ptype, risk⟩],
    st.mapped ++ members,
    counter,
    st.data.map (fun d =>
      if members.contains d.acc then
        ⟨d.acc, d.score, d.patterns, some rid, d.acc_type⟩ else d)⟩

/-- Pass 1: every emitted cycle becomes a ring. -/
def cycleRingPass (cycles : List (List String)) (st : RingState) : RingState :=
  cycles.foldl (fun s c => applyRing c "circular_fund_routing" s) st

/-- Pass 2: a shell chain becomes a ring only if none of its members is
already mapped to a ring. -/
def shellRingPass (chains : List ShellChain) (st : RingState) : RingState :=
  chains.foldl
    (fun s ch =>
      if ch.path.any (fun m => s.mapped.contains m) then s
      else applyRing ch.path "layered_shell_network" s)
    st

/-- Python list.sort(key=score, reverse=True): stable descending sort. -/
def sortSuspicious (l : List SuspiciousAccount) : List SuspiciousAccount :=
  l.insertionSort (fun a b => b.suspicion_score ≤ a.suspicion_score)

/-- analysis_engine.run_full_analysis: detect patterns, score and filter
accounts, form rings in two passes, and assemble the sorted envelope.
startNodes stands for the random.sample outcome inside
detect_shell_networks. -/
def run_full_analysis (df : List Tx) (startNodes : List String) :
    AnalysisResponse :=
  let cycles := detect_cycles (buildGraph df) 3 5
  let smurf := detect_smurfing df
  let chains := detect_shell_networks df startNodes
  let data0 := engineAccounts df cycles smurf chains
  let st := shellRingPass chains
    (cycleRingPass cycles ⟨[], [], 0, data0⟩)
  let suspicious := sortSuspicious
    (st.data.map (fun d => ⟨d.acc, d.score, d.patterns, d.ring_id⟩))
  ⟨suspicious, st.rings,
    ⟨(allAccounts df).length, suspicious.length, st.rings.length⟩⟩

/-- The final score the engine computes for an account (given the sampled
shell-chain start nodes). -/
def accountScore (df : List Tx) (startNodes : List String) (acc : String) : ℚ :=
  (accountEntry df (detect_cycles (buildGraph df) 3 5) (detect_smurfing df)
    (detect_shell_networks df startNodes) acc).score

/-- Shorthand for building concrete transaction rows in the examples. -/
def mkTx (i : Nat) (sdr rcv : String) (amt ts : ℚ) : Tx :=
  ⟨"T" ++ toString i, sdr, rcv, amt, ts⟩

/-- Two directed triangles sharing the account A. -/
def dfTwoCycles : List Tx :=
  [mkTx 1 "A" "B" 500 0, mkTx 2 "B" "C" 500 3600, mkTx 3 "C" "A" 500 7200,
   mkTx 4 "A" "D" 500 10800, mkTx 5 "D" "E" 500 14400, mkTx 6 "E" "A" 500 18000]

/-- A four-hop directed path through low-activity accounts. -/
def dfPath : List Tx :=
  [mkTx 1 "X" "A" 500 0, mkTx 2 "A" "B" 500 3600, mkTx 3 "B" "C" 500 7200,
   mkTx 4 "C" "D" 500 10800]

/-- A merchant M (25 incoming rows from 13 distinct senders spread over more
than 72 hours) sitting inside the triangle M -> B -> C -> M. -/
def dfMerchantCycle : List Tx :=
  ((List.range 24).map (fun i =>
    mkTx (10 + i) ("S" ++ toString (i % 12)) "M" 100 (28800 * i))) ++
  [mkTx 40 "M" "B" 900 700000, mkTx 41 "B" "C" 900 703600,
   mkTx 42 "C" "M" 900 707200]

/-- A three-hop chain whose only shell-chain start is X. -/
def dfChain : List Tx :=
  [mkTx 1 "X" "A" 500 0, mkTx 2 "A" "B" 500 3600, mkTx 3 "B" "C" 500 7200]

/-- 49 transactions between 98 completely fresh accounts. -/
def freshTxs : List Tx :=
  (List.range 49).map (fun i =>
    mkTx (100 + i) ("F" ++ toString (2 * i)) ("F" ++ toString (2 * i + 1)) 1
      (10000 + 100 * i))

/-- dfChain with the fresh transactions appended: 102 accounts, so the shell
start sample keeps only 100 of them. -/
def dfChainFresh : List Tx := dfChain ++ freshTxs

/-- A valid 100-element start sample for dfChainFresh that omits X. -/
def startsNoX : List String :=
  ["A", "C"] ++ (List.range 98).map (fun i => "F" ++ toString i)

/-- Two transactions between the same ordered pair of accounts. -/
def dfDupPair : List Tx :=
  [mkTx 1 "P" "Q" 100 0, mkTx 2 "P" "Q" 200 3600]

/-- Soundness predicate for an emitted cycle: a duplicate-free vertex path of
bounded length whose consecutive pairs are edges and whose last vertex has an
edge back to the first. -/
def GoodCycle (G : FGraph) (lo hi : Nat) (c : List String) : Prop :=
  c.Nodup ∧ lo ≤ c.length ∧ c.length ≤ hi ∧ List.Chain' (hasEdge G) c ∧
  ∃ a b, c.head? = some a ∧ c.getLast? = some b ∧ hasEdge G b a

/-- Invariant of a DFS stack frame of detect_cycles. -/
def GoodFrame (G : FGraph) (start : String) (f : CFrame) : Prop :=
  f.path ≠ [] ∧ f.path.head? = some start ∧ f.path.getLast? = some f.cur ∧
  f.path.Nodup ∧ List.Chain' (hasEdge G) f.path ∧ f.path ⊆ f.visited

/-- Running invariant of the cycle-collection state of detect_cycles. -/
def GoodState (G : FGraph) (lo hi cap : Nat) (st : CState) : Prop :=
  (∀ c ∈ st.cycles, GoodCycle G lo hi c) ∧
  st.visGlob = st.cycles.map sortKey ∧ st.visGlob.Nodup ∧
  st.cycles.length ≤ cap

/-- The pairwise relation the amended C2 asserts between output rings. -/
def RingsDisjointWithShell (r1 r2 : FraudRing) : Prop :=
  (r1.pattern_type = "layered_shell_network" ∨
    r2.pattern_type = "layered_shell_network") →
  ∀ a ∈ r1.member_accounts, a ∉ r2.member_accounts

/-- Every member of every ring recorded so far is in ring_members_mapped. -/
def MappedCover (st : RingState) : Prop :=
  ∀ r ∈ st.rings, ∀ a ∈ r.member_accounts, a ∈ st.mapped

/-- The risk score C7 claims: the mean of the suspicion scores of all
accounts in the ring's member list, clamped to the score range and rounded
to two decimals. -/
def claimedRingRisk (df : List Tx) (startNodes : List String)
    (r : FraudRing) : ℚ :=
  let scores := r.member_accounts.map (accountScore df startNodes)
  min 100 (max 0 (rnd2 (if scores.isEmpty then 0
    else scores.sum / scores.length)))

/-- The risk score the engine actually assigns: the mean over only those
members that are present in account_data (that passed the reporting filter),
0 when none is, capped above at 100 and rounded to two decimals. -/
def reportedRingRisk (data : List AccData) (members : List String) : ℚ :=
  let ms := members.filterMap
    (fun a => (data.find? (fun d => d.acc = a)).map (fun d => d.score))
  min 100 (rnd2 (if ms.isEmpty then 0 else ms.sum / ms.length))

/-- Score lookups against the ring state agree with lookups against the
original account_data. -/
def ScoreLookupEq (data0 : List AccData) (st : RingState) : Prop :=
  ∀ a, (st.data.find? (fun d => decide (d.acc = a))).map (fun d => d.score) =
    (data0.find? (fun d => decide (d.acc = a))).map (fun d => d.score)

def RiskInv (data0 : List AccData) (st : RingState) : Prop :=
  ScoreLookupEq data0 st ∧
  ∀ r ∈ st.rings, r.risk_score = reportedRingRisk data0 r.member_accounts

theorem rnd2_le_of_le {x c : ℚ} (hc : c * 100 = (⌊c * 100⌋ : ℚ)) (h : x ≤ c) :
    rnd2 x ≤ c := by
  unfold rnd2
  rw [div_le_iff₀ (by norm_num : (0:ℚ) < 100)]
  rw [round_eq]
  have h1 : (⌊x * 100 + 1 / 2⌋ : ℚ) ≤ x * 100 + 1 / 2 := Int.floor_le _
  have h2 : x * 100 + 1 / 2 ≤ c * 100 + 1 / 2 := by nlinarith
  have h3 : (⌊x * 100 + 1 / 2⌋ : ℚ) ≤ c * 100 + 1 / 2 := le_trans h1 h2
  have h4 : ⌊x * 100 + 1 / 2⌋ ≤ ⌊c * 100 + 1 / 2⌋ := Int.floor_mono h2
  have h5 : ⌊c * 100 + 1 / 2⌋ = ⌊c * 100⌋ + ⌊(1:ℚ) / 2⌋ := by
    rw [hc]
    rw [Int.add_comm] at *
    rw [add_comm]
    exact Int.floor_add_int (1/2 : ℚ) ⌊c * 100⌋
  have h6 : (⌊(1:ℚ)/2⌋ : ℤ) = 0 := by norm_num
  have h7 : ⌊x * 100 + 1 / 2⌋ ≤ ⌊c * 100⌋ := by omega
  calc ((⌊x * 100 + 1/2⌋ : ℤ) : ℚ) ≤ (⌊c * 100⌋ : ℚ) := by exact_mod_cast h7
    _ = c * 100 := hc.symm

/-- C1: for every list of base scores and multipliers and every account
type, calculate_final_score returns a value in the interval from 0 to 100; a
merchant account's final score never exceeds 35 and a payroll account's
never exceeds 30. -/
theorem C1_final_score_bounds (bs ms : List ℚ) (t : String) :
    0 ≤ calculate_final_score bs ms t ∧ calculate_final_score bs ms t ≤ 100 ∧
    (t = "merchant" → calculate_final_score bs ms t ≤ 35) ∧
    (t = "payroll" → calculate_final_score bs ms t ≤ 30) := by
  unfold calculate_final_score
  by_cases hbs : bs = []
  · simp [hbs]
  · simp only [if_neg hbs]
    refine ⟨le_min (by norm_num [RiskWeights.MAX_SCORE])
        (le_max_left _ _), min_le_left _ _, ?_, ?_⟩
    · intro ht
      simp only [ht, if_pos]
      have h35 : (35:ℚ) * 100 = (⌊(35:ℚ) * 100⌋ : ℚ) := by norm_num
      refine le_trans (min_le_right _ _)
        (max_le (by norm_num [RiskWeights.MIN_SCORE]) ?_)
      exact rnd2_le_of_le h35
        (min_le_right _ RiskWeights.MERCHANT_MAX_SCORE)
    · intro ht
      have hne : t ≠ "merchant" := by simp [ht]
      simp only [ht, if_neg hne, reduceIte]
      have h30 : (30:ℚ) * 100 = (⌊(30:ℚ) * 100⌋ : ℚ) := by norm_num
      refine le_trans (min_le_right _ _)
        (max_le (by norm_num [RiskWeights.MIN_SCORE]) ?_)
      exact rnd2_le_of_le h30
        (min_le_right _ RiskWeights.PAYROLL_MAX_SCORE)

/-- Witness for C1 at concrete inputs (the inputs of the repository's own
scoring test). -/
theorem C1_final_score_bounds_witness :
    calculate_final_score [50, 60] [1] "merchant" ≤ 35 ∧
    calculate_final_score [50, 60] [1] "payroll" ≤ 30 ∧
    calculate_final_score [50, 60] [1] "merchant" = 35 :=
  ⟨(C1_final_score_bounds [50, 60] [1] "merchant").2.2.1 rfl,
   (C1_final_score_bounds [50, 60] [1] "payroll").2.2.2 rfl,
   by decide⟩

theorem lexLt_nil_right (x : List Char) : lexLt x [] = false := by
  cases x <;> rfl

theorem lexLt_irrefl : ∀ l : List Char, lexLt l l = false
  | [] => rfl
  | a :: as => by simp [lexLt, lexLt_irrefl as]

theorem lexLt_trans : ∀ (x y z : List Char),
    lexLt x y = true → lexLt y z = true → lexLt x z = true
  | x, y, [], _, h2 => absurd h2 (by simp [lexLt_nil_right])
  | x, [], _ :: _, h1, _ => absurd h1 (by simp [lexLt_nil_right])
  | [], _ :: _, _ :: _, _, _ => rfl
  | a :: as, b :: bs, c :: cs, h1, h2 => by
    simp only [lexLt] at h1 h2 ⊢
    rcases Nat.lt_trichotomy a.toNat b.toNat with hab | hab | hab
    · rcases Nat.lt_trichotomy b.toNat c.toNat with hbc | hbc | hbc
      · simp [Nat.lt_trans hab hbc]
      · simp [hbc ▸ hab]
      · rw [if_neg (Nat.lt_asymm hbc), if_pos hbc] at h2
        exact absurd h2 (by simp)
    · rw [if_neg (by omega), if_neg (by omega)] at h1
      rcases Nat.lt_trichotomy b.toNat c.toNat with hbc | hbc | hbc
      · simp [hab ▸ hbc]
      · rw [if_neg (by omega), if_neg (by omega)] at h2
        have hrec := lexLt_trans as bs cs h1 h2
        have hn1 : ¬ a.toNat < c.toNat := by omega
        have hn2 : ¬ c.toNat < a.toNat := by omega
        simp [hrec, hn1, hn2]
      · rw [if_neg (Nat.lt_asymm hbc), if_pos hbc] at h2
        exact absurd h2 (by simp)
    · rw [if_neg (Nat.lt_asymm hab), if_pos hab] at h1
      exact absurd h1 (by simp)

theorem lexLt_connex : ∀ (x y : List Char),
    lexLt x y = false → lexLt y x = true ∨ x = y
  | [], [], _ => Or.inr rfl
  | [], _ :: _, h => absurd h (by simp [lexLt])
  | _ :: _, [], _ => Or.inl rfl
  | a :: as, b :: bs, h => by
    simp only [lexLt] at h ⊢
    rcases Nat.lt_trichotomy a.toNat b.toNat with hab | hab | hab
    · rw [if_pos hab] at h
      exact absurd h (by simp)
    · rw [if_neg (by omega), if_neg (by omega)] at h
      rcases lexLt_connex as bs h with h2 | h2
      · have hn1 : ¬ b.toNat < a.toNat := by omega
        have hn2 : ¬ a.toNat < b.toNat := by omega
        exact Or.inl (by simp [h2, hn1, hn2])
      · have hc : a = b := Char.eq_of_val_eq (UInt32.ext hab)
        exact Or.inr (by simp [hc, h2])
    · exact Or.inl (by simp [hab])

theorem string_data_inj {a b : String} (h : a.data = b.data) : a = b := by
  cases a; cases b; exact congrArg String.mk h

instance : IsTotal String strLe := by
  constructor
  intro a b
  by_cases h : lexLt b.data a.data = false
  · exact Or.inl h
  · refine Or.inr ?_
    unfold strLe
    by_contra h2
    simp only [Bool.not_eq_false] at h h2
    have := lexLt_trans _ _ _ h h2
    simp [lexLt_irrefl] at this

instance : IsTrans String strLe := by
  constructor
  intro a b c h1 h2
  unfold strLe at h1 h2 ⊢
  by_contra hca
  simp only [Bool.not_eq_false] at hca
  rcases lexLt_connex _ _ h1 with hab | hab
  · have := lexLt_trans _ _ _ hca hab
    rw [h2] at this
    exact absurd this (by simp)
  · rw [← hab] at hca
    rw [h2] at hca
    exact absurd hca (by simp)

instance : IsAntisymm String strLe := by
  constructor
  intro a b h1 h2
  unfold strLe at h1 h2
  rcases lexLt_connex _ _ h1 with hab | hab
  · rw [h2] at hab
    exact absurd hab (by simp)
  · exact (string_data_inj hab).symm

theorem mem_groupKeys_iff (l : List String) (v : String) :
    v ∈ groupKeys l ↔ v ∈ l := by
  unfold groupKeys
  rw [List.mem_insertionSort]
  exact List.mem_dedup

theorem incoming_ne_nil_of_nunique {df : List Tx} {v : String}
    (h : 10 ≤ nunique ((incomingTx df v).map (fun t => t.sender_id))) :
    v ∈ df.map (fun t => t.receiver_id) := by
  rcases hg : incomingTx df v with _ | ⟨t, ts⟩
  · rw [hg] at h
    simp [nunique] at h
  · have ht : t ∈ incomingTx df v := by rw [hg]; exact List.mem_cons_self t ts
    unfold incomingTx at ht
    rw [List.mem_filter] at ht
    rw [List.mem_map]
    exact ⟨t, ht.1, by simpa using ht.2⟩

theorem outgoing_ne_nil_of_nunique {df : List Tx} {v : String}
    (h : 10 ≤ nunique ((outgoingTx df v).map (fun t => t.receiver_id))) :
    v ∈ df.map (fun t => t.sender_id) := by
  rcases hg : outgoingTx df v with _ | ⟨t, ts⟩
  · rw [hg] at h
    simp [nunique] at h
  · have ht : t ∈ outgoingTx df v := by rw [hg]; exact List.mem_cons_self t ts
    unfold outgoingTx at ht
    rw [List.mem_filter] at ht
    rw [List.mem_map]
    exact ⟨t, ht.1, by simpa using ht.2⟩

theorem smurf_hits_iff (df : List Tx) (v : String) :
    ((∃ r ∈ (detect_smurfing df).fan_in, r.account_id = v) ↔
      (10 ≤ nunique ((incomingTx df v).map (fun t => t.sender_id)) ∧
        groupSpanSec (incomingTx df v) ≤ 72 * 3600)) ∧
    ((∃ r ∈ (detect_smurfing df).fan_out, r.account_id = v) ↔
      (10 ≤ nunique ((outgoingTx df v).map (fun t => t.receiver_id)) ∧
        groupSpanSec (outgoingTx df v) ≤ 72 * 3600)) ∧
    (v ∈ (detect_smurfing df).is_merchant_trap ↔
      ((10 ≤ nunique ((incomingTx df v).map (fun t => t.sender_id)) ∧
        ¬ groupSpanSec (incomingTx df v) ≤ 72 * 3600) ∨
       (10 ≤ nunique ((outgoingTx df v).map (fun t => t.receiver_id)) ∧
        ¬ groupSpanSec (outgoingTx df v) ≤ 72 * 3600))) := by
  refine ⟨?_, ?_, ?_⟩
  · constructor
    · rintro ⟨r, hr, hrv⟩
      simp only [detect_smurfing] at hr
      rw [List.mem_filterMap] at hr
      obtain ⟨k, _, hfk⟩ := hr
      split at hfk
      · rename_i hcond
        obtain rfl := (Option.some.injEq _ _).mp hfk
        simp only at hrv
        subst hrv
        exact hcond
      · exact absurd hfk (by simp)
    · rintro ⟨h1, h2⟩
      refine ⟨⟨v, nunique ((incomingTx df v).map (fun t => t.sender_id)),
        groupSpanSec (incomingTx df v) / 3600, (incomingTx df v).length,
        listMean ((incomingTx df v).map (fun t => t.amount))⟩, ?_, rfl⟩
      simp only [detect_smurfing]
      rw [List.mem_filterMap]
      refine ⟨v, (mem_groupKeys_iff _ _).mpr (incoming_ne_nil_of_nunique h1), ?_⟩
      rw [if_pos ⟨h1, h2⟩]
  · constructor
    · rintro ⟨r, hr, hrv⟩
      simp only [detect_smurfing] at hr
      rw [List.mem_filterMap] at hr
      obtain ⟨k, _, hfk⟩ := hr
      split at hfk
      · rename_i hcond
        obtain rfl := (Option.some.injEq _ _).mp hfk
        simp only at hrv
        subst hrv
        exact hcond
      · exact absurd hfk (by simp)
    · rintro ⟨h1, h2⟩
      refine ⟨⟨v, nunique ((outgoingTx df v).map (fun t => t.receiver_id)),
        groupSpanSec (outgoingTx df v) / 3600, (outgoingTx df v).length,
        listMean ((outgoingTx df v).map (fun t => t.amount))⟩, ?_, rfl⟩
      simp only [detect_smurfing]
      rw [List.mem_filterMap]
      refine ⟨v, (mem_groupKeys_iff _ _).mpr (outgoing_ne_nil_of_nunique h1), ?_⟩
      rw [if_pos ⟨h1, h2⟩]
  · simp only [detect_smurfing]
    rw [List.mem_append, List.mem_filter, List.mem_filter]
    constructor
    · rintro (⟨_, hc⟩ | ⟨_, hc⟩)
      · exact Or.inl (by simpa using hc)
      · exact Or.inr (by simpa using hc)
    · rintro (⟨h1, h2⟩ | ⟨h1, h2⟩)
      · refine Or.inl ⟨(mem_groupKeys_iff _ _).mpr (incoming_ne_nil_of_nunique h1), ?_⟩
        have h3 := not_le.mp h2
        simp [RiskWeights.FAN_THRESHOLD, RiskWeights.WINDOW_HOURS, h1, h3]
      · refine Or.inr ⟨(mem_groupKeys_iff _ _).mpr (outgoing_ne_nil_of_nunique h1), ?_⟩
        have h3 := not_le.mp h2
        simp [RiskWeights.FAN_THRESHOLD, RiskWeights.WINDOW_HOURS, h1, h3]

/-- C6: an account receives a fan-in evidence record exactly when it has at
least 10 distinct senders and its incoming rows span at most 72 hours;
fan-out is symmetric over distinct receivers; an account whose counterparty
count passes the threshold but whose span exceeds the window is recorded as
a merchant-trap candidate instead. -/
theorem C6_fan_hit_iff (df : List Tx) (v : String) :
    ((∃ r ∈ (detect_smurfing df).fan_in, r.account_id = v) ↔
      (10 ≤ nunique ((incomingTx df v).map (fun t => t.sender_id)) ∧
        groupSpanSec (incomingTx df v) ≤ 72 * 3600)) ∧
    ((∃ r ∈ (detect_smurfing df).fan_out, r.account_id = v) ↔
      (10 ≤ nunique ((outgoingTx df v).map (fun t => t.receiver_id)) ∧
        groupSpanSec (outgoingTx df v) ≤ 72 * 3600)) ∧
    (v ∈ (detect_smurfing df).is_merchant_trap ↔
      ((10 ≤ nunique ((incomingTx df v).map (fun t => t.sender_id)) ∧
        ¬ groupSpanSec (incomingTx df v) ≤ 72 * 3600) ∨
       (10 ≤ nunique ((outgoingTx df v).map (fun t => t.receiver_id)) ∧
        ¬ groupSpanSec (outgoingTx df v) ≤ 72 * 3600))) :=
  smurf_hits_iff df v

theorem mem_successors_hasEdge {G : FGraph} {v n : String}
    (h : n ∈ successors G v) : hasEdge G v n := by
  unfold successors at h
  rw [List.mem_map] at h
  obtain ⟨e, he, hedst⟩ := h
  rw [List.mem_filter] at he
  exact ⟨e, he.1, by simpa using he.2, hedst⟩

theorem visitNeighbors_no_add (start : String) (path : List String)
    (minLen maxLen : Nat) :
    ∀ (ns : List String) (st : CState) (vis : List String)
      (pushed : List CFrame), sortKey path ∈ st.visGlob →
      (visitNeighbors start path minLen maxLen ns st vis pushed).1 = st
  | [], st, vis, pushed, _ => rfl
  | n :: ns, st, vis, pushed, h => by
    simp only [visitNeighbors]
    have hemit :
        (if n = start ∧ minLen ≤ path.length ∧ path.length ≤ maxLen then
          if sortKey path ∈ st.visGlob then st
          else ⟨st.cycles ++ [path], st.visGlob ++ [sortKey path]⟩
         else st) = st := by
      rw [if_pos h]
      split <;> rfl
    rw [hemit]
    split
    · exact visitNeighbors_no_add start path minLen maxLen ns st _ _ h
    · exact visitNeighbors_no_add start path minLen maxLen ns st _ _ h

theorem visitNeighbors_spec (G : FGraph) (start cur : String)
    (path : List String) (minLen maxLen : Nat) :
    ∀ (ns : List String) (st : CState) (vis : List String)
      (pushed : List CFrame),
    path ≠ [] → path.head? = some start → path.getLast? = some cur →
    path.Nodup → List.Chain' (hasEdge G) path → path ⊆ vis →
    (∀ n ∈ ns, hasEdge G cur n) →
    (∀ c ∈ st.cycles, GoodCycle G minLen maxLen c) →
    st.visGlob = st.cycles.map sortKey → st.visGlob.Nodup →
    (∀ c ∈ (visitNeighbors start path minLen maxLen ns st vis pushed).1.cycles,
      GoodCycle G minLen maxLen c) ∧
    (visitNeighbors start path minLen maxLen ns st vis pushed).1.visGlob =
      (visitNeighbors start path minLen maxLen ns st vis pushed).1.cycles.map
        sortKey ∧
    (visitNeighbors start path minLen maxLen ns st vis pushed).1.visGlob.Nodup ∧
    (visitNeighbors start path minLen maxLen ns st vis pushed).1.cycles.length ≤
      st.cycles.length + 1 ∧
    vis ⊆ (visitNeighbors start path minLen maxLen ns st vis pushed).2.1 ∧
    (∀ f ∈ (visitNeighbors start path minLen maxLen ns st vis pushed).2.2,
      f ∈ pushed ∨ GoodFrame G start f)
  | [], st, vis, pushed, _, _, _, _, _, _, _, hcyc, hglob, hnodg =>
    ⟨hcyc, hglob, hnodg, Nat.le_succ _, fun _ ha => ha,
      fun _ hf => Or.inl hf⟩
  | n :: ns, st, vis, pushed, hne, hhead, hlast, hnd, hch, hsub, hedges,
      hcyc, hglob, hnodg => by
    simp only [visitNeighbors]
    by_cases hemit : n = start ∧ minLen ≤ path.length ∧ path.length ≤ maxLen
    · rw [if_pos hemit]
      by_cases hkey : sortKey path ∈ st.visGlob
      · rw [if_pos hkey]
        have hrest := fun vis2 pushed2 hsub2 =>
          visitNeighbors_spec G start cur path minLen maxLen ns st vis2
            pushed2 hne hhead hlast hnd hch hsub2
            (fun m hm => hedges m (List.mem_cons_of_mem n hm)) hcyc hglob hnodg
        by_cases hpush : n ∉ vis ∧ path.length < maxLen
        · rw [if_pos hpush]
          have hx := hrest (vis ++ [n]) (pushed ++ [⟨n, path ++ [n], vis ++ [n]⟩])
            (fun a ha => List.mem_append_left _ (hsub ha))
          refine ⟨hx.1, hx.2.1, hx.2.2.1, hx.2.2.2.1, ?_, ?_⟩
          · exact fun a ha => hx.2.2.2.2.1 (List.mem_append_left _ ha)
          · intro f hf
            rcases hx.2.2.2.2.2 f hf with hmem | hg
            · rw [List.mem_append] at hmem
              rcases hmem with hmem | hmem
              · exact Or.inl hmem
              · refine Or.inr ?_
                obtain rfl : f = ⟨n, path ++ [n], vis ++ [n]⟩ := by
                  simpa using hmem
                refine ⟨by simp, ?_, ?_, ?_, ?_, ?_⟩
                · rw [List.head?_append, hhead]; rfl
                · simp [List.getLast?_concat]
                · rw [List.nodup_append]
                  refine ⟨hnd, List.nodup_singleton n, ?_⟩
                  intro a ha hb
                  obtain rfl : a = n := by simpa using hb
                  exact hpush.1 (hsub ha)
                · rw [List.chain'_append]
                  refine ⟨hch, List.chain'_singleton n, ?_⟩
                  intro x hx2 y hy
                  rw [hlast] at hx2
                  obtain rfl : cur = x := by simpa using hx2
                  obtain rfl : n = y := by simpa using hy
                  exact hedges n (List.mem_cons_self n ns)
                · intro a ha
                  simp only [CFrame.mk] at ha ⊢
                  rw [List.mem_append] at ha ⊢
                  rcases ha with ha | ha
                  · exact Or.inl (hsub ha)
                  · exact Or.inr ha
            · exact Or.inr hg
        · rw [if_neg hpush]
          exact hrest vis pushed hsub
      · rw [if_neg hkey]
        have hst2cyc : ∀ c ∈ (st.cycles ++ [path]), GoodCycle G minLen maxLen c := by
          intro c hc
          rw [List.mem_append] at hc
          rcases hc with hc | hc
          · exact hcyc c hc
          · obtain rfl : c = path := by simpa using hc
            obtain ⟨hns, hlo, hhi⟩ := hemit
            refine ⟨hnd, hlo, hhi, hch, start, cur, hhead, hlast, ?_⟩
            have := hedges n (List.mem_cons_self n ns)
            rwa [hns] at this
        have hst2glob : (st.visGlob ++ [sortKey path]) =
            (st.cycles ++ [path]).map sortKey := by
          rw [List.map_append, hglob]; rfl
        have hst2nodg : (st.visGlob ++ [sortKey path]).Nodup := by
          rw [List.nodup_append]
          refine ⟨hnodg, List.nodup_singleton _, ?_⟩
          intro a ha hb
          obtain rfl : a = sortKey path := by simpa using hb
          exact hkey ha
        have hkey2 : sortKey path ∈
            (CState.mk (st.cycles ++ [path]) (st.visGlob ++ [sortKey path])).visGlob := by
          simp
        have hrest := fun vis2 pushed2 hsub2 =>
          visitNeighbors_spec G start cur path minLen maxLen ns
            ⟨st.cycles ++ [path], st.visGlob ++ [sortKey path]⟩ vis2
            pushed2 hne hhead hlast hnd hch hsub2
            (fun m hm => hedges m (List.mem_cons_of_mem n hm)) hst2cyc
            hst2glob hst2nodg
        have hlen : ∀ vis2 pushed2,
            (visitNeighbors start path minLen maxLen ns
              ⟨st.cycles ++ [path], st.visGlob ++ [sortKey path]⟩ vis2
              pushed2).1.cycles.length = st.cycles.length + 1 := by
          intro vis2 pushed2
          rw [visitNeighbors_no_add start path minLen maxLen ns _ vis2 pushed2 hkey2]
          simp
        by_cases hpush : n ∉ vis ∧ path.length < maxLen
        · rw [if_pos hpush]
          have hx := hrest (vis ++ [n]) (pushed ++ [⟨n, path ++ [n], vis ++ [n]⟩])
            (fun a ha => List.mem_append_left _ (hsub ha))
          refine ⟨hx.1, hx.2.1, hx.2.2.1, le_of_eq (hlen _ _), ?_, ?_⟩
          · exact fun a ha => hx.2.2.2.2.1 (List.mem_append_left _ ha)
          · intro f hf
            rcases hx.2.2.2.2.2 f hf with hmem | hg
            · rw [List.mem_append] at hmem
              rcases hmem with hmem | hmem
              · exact Or.inl hmem
              · refine Or.inr ?_
                obtain rfl : f = ⟨n, path ++ [n], vis ++ [n]⟩ := by
                  simpa using hmem
                refine ⟨by simp, ?_, ?_, ?_, ?_, ?_⟩
                · rw [List.head?_append, hhead]; rfl
                · simp [List.getLast?_concat]
                · rw [List.nodup_append]
                  refine ⟨hnd, List.nodup_singleton n, ?_⟩
                  intro a ha hb
                  obtain rfl : a = n := by simpa using hb
                  exact hpush.1 (hsub ha)
                · rw [List.chain'_append]
                  refine ⟨hch, List.chain'_singleton n, ?_⟩
                  intro x hx2 y hy
                  rw [hlast] at hx2
                  obtain rfl : cur = x := by simpa using hx2
                  obtain rfl : n = y := by simpa using hy
                  exact hedges n (List.mem_cons_self n ns)
                · intro a ha
                  simp only [CFrame.mk] at ha ⊢
                  rw [List.mem_append] at ha ⊢
                  rcases ha with ha | ha
                  · exact Or.inl (hsub ha)
                  · exact Or.inr ha
            · exact Or.inr hg
        · rw [if_neg hpush]
          have hx := hrest vis pushed hsub
          exact ⟨hx.1, hx.2.1, hx.2.2.1, le_of_eq (hlen _ _), hx.2.2.2.2.1,
            hx.2.2.2.2.2⟩
    · rw [if_neg hemit]
      have hrest := fun vis2 pushed2 hsub2 =>
        visitNeighbors_spec G start cur path minLen maxLen ns st vis2
          pushed2 hne hhead hlast hnd hch hsub2
          (fun m hm => hedges m (List.mem_cons_of_mem n hm)) hcyc hglob hnodg
      by_cases hpush : n ∉ vis ∧ path.length < maxLen
      · rw [if_pos hpush]
        have hx := hrest (vis ++ [n]) (pushed ++ [⟨n, path ++ [n], vis ++ [n]⟩])
          (fun a ha => List.mem_append_left _ (hsub ha))
        refine ⟨hx.1, hx.2.1, hx.2.2.1, hx.2.2.2.1, ?_, ?_⟩
        · exact fun a ha => hx.2.2.2.2.1 (List.mem_append_left _ ha)
        · intro f hf
          rcases hx.2.2.2.2.2 f hf with hmem | hg
          · rw [List.mem_append] at hmem
            rcases hmem with hmem | hmem
            · exact Or.inl hmem
            · refine Or.inr ?_
              obtain rfl : f = ⟨n, path ++ [n], vis ++ [n]⟩ := by
                simpa using hmem
              refine ⟨by simp, ?_, ?_, ?_, ?_, ?_⟩
              · rw [List.head?_append, hhead]; rfl
              · simp [List.getLast?_concat]
              · rw [List.nodup_append]
                refine ⟨hnd, List.nodup_singleton n, ?_⟩
                intro a ha hb
                obtain rfl : a = n := by simpa using hb
                exact hpush.1 (hsub ha)
              · rw [List.chain'_append]
                refine ⟨hch, List.chain'_singleton n, ?_⟩
                intro x hx2 y hy
                rw [hlast] at hx2
                obtain rfl : cur = x := by simpa using hx2
                obtain rfl : n = y := by simpa using hy
                exact hedges n (List.mem_cons_self n ns)
              · intro a ha
                simp only [CFrame.mk] at ha ⊢
                rw [List.mem_append] at ha ⊢
                rcases ha with ha | ha
                · exact Or.inl (hsub ha)
                · exact Or.inr ha
          · exact Or.inr hg
      · rw [if_neg hpush]
        exact hrest vis pushed hsub

theorem cycleLoop_inv (G : FGraph) (start : String) (lo hi cap : Nat) :
    ∀ (fuel : Nat) (stack : List CFrame) (st : CState),
    (∀ f ∈ stack, GoodFrame G start f) → GoodState G lo hi cap st →
    GoodState G lo hi cap (cycleLoop G start lo hi cap fuel stack st)
  | 0, _, st, _, hst => hst
  | _ + 1, [], st, _, hst => hst
  | fuel + 1, f :: rest, st, hframes, hst => by
    simp only [cycleLoop]
    split
    · rename_i hcap
      split
      · exact cycleLoop_inv G start lo hi cap fuel rest st
          (fun g hg => hframes g (List.mem_cons_of_mem f hg)) hst
      · obtain ⟨hne, hhead, hlast, hnd, hch, hsub⟩ :=
          hframes f (List.mem_cons_self f rest)
        have hx := visitNeighbors_spec G start f.cur f.path lo hi
          (successors G f.cur) st f.visited [] hne hhead hlast hnd hch hsub
          (fun n hn => mem_successors_hasEdge hn) hst.1 hst.2.1 hst.2.2.1
        refine cycleLoop_inv G start lo hi cap fuel _ _ ?_
          ⟨hx.1, hx.2.1, hx.2.2.1, ?_⟩
        · intro g hg
          rw [List.mem_append] at hg
          rcases hg with hg | hg
          · rw [List.mem_reverse] at hg
            rcases hx.2.2.2.2.2 g hg with hmem | hgood
            · exact absurd hmem (List.not_mem_nil g)
            · exact hgood
          · exact hframes g (List.mem_cons_of_mem f hg)
        · have := hx.2.2.2.1
          omega
    · exact hst

theorem detect_cycles_state (G : FGraph) (lo hi : Nat) :
    ∃ st : CState, GoodState G lo hi MAX_CYCLES st ∧
      detect_cycles G lo hi = st.cycles := by
  have hfold : ∀ (hubs : List String) (st : CState),
      GoodState G lo hi MAX_CYCLES st →
      GoodState G lo hi MAX_CYCLES (hubs.foldl
        (fun st v =>
          if MAX_CYCLES ≤ st.cycles.length then st
          else cycleLoop G v lo hi MAX_CYCLES ((G.edges.length + 2) ^ 7)
            [⟨v, [v], [v]⟩] st) st) := by
    intro hubs
    induction hubs with
    | nil => exact fun st h => h
    | cons v vs ih =>
      intro st hst
      simp only [List.foldl_cons]
      refine ih _ ?_
      split
      · exact hst
      · refine cycleLoop_inv G v lo hi MAX_CYCLES _ _ st ?_ hst
        intro f hf
        obtain rfl : f = ⟨v, [v], [v]⟩ := by simpa using hf
        exact ⟨by simp, rfl, rfl, List.nodup_singleton v,
          List.chain'_singleton v, by simp⟩
  have hinit : GoodState G lo hi MAX_CYCLES ⟨[], []⟩ :=
    ⟨by simp, by simp, by simp, by simp⟩
  unfold detect_cycles
  exact ⟨_, hfold _ ⟨[], []⟩ hinit, rfl⟩

theorem sortKey_eq_of_perm {a b : List String} (h : a.Perm b) :
    sortKey a = sortKey b := by
  unfold sortKey
  refine List.eq_of_perm_of_sorted ?_ (List.sorted_insertionSort strLe a)
    (List.sorted_insertionSort strLe b)
  exact ((List.perm_insertionSort strLe a).trans h).trans
    (List.perm_insertionSort strLe b).symm

/-- C5: every cycle detect_cycles emits is a simple directed cycle of the
transaction graph with between 3 and 5 vertices, any two emitted cycles have
different vertex sets, and at most 1000 cycles are emitted. -/
theorem C5_cycles_sound (df : List Tx) :
    (∀ c ∈ detect_cycles (buildGraph df) 3 5,
      c.Nodup ∧ 3 ≤ c.length ∧ c.length ≤ 5 ∧
      List.Chain' (hasEdge (buildGraph df)) c ∧
      ∃ a b, c.head? = some a ∧ c.getLast? = some b ∧
        hasEdge (buildGraph df) b a) ∧
    (detect_cycles (buildGraph df) 3 5).Pairwise
      (fun c d => c.toFinset ≠ d.toFinset) ∧
    (detect_cycles (buildGraph df) 3 5).length ≤ 1000 := by
  obtain ⟨st, ⟨hcyc, hglob, hnodg, hlen⟩, heq⟩ :=
    detect_cycles_state (buildGraph df) 3 5
  rw [heq]
  refine ⟨hcyc, ?_, by simpa [MAX_CYCLES] using hlen⟩
  have hmap : (st.cycles.map sortKey).Nodup := by rw [← hglob]; exact hnodg
  have hpw : st.cycles.Pairwise (fun c d => sortKey c ≠ sortKey d) := by
    have := (List.pairwise_map (l := st.cycles)
      (f := sortKey) (R := fun a b => a ≠ b)).mp hmap
    exact this
  refine hpw.imp_of_mem ?_
  intro a b ha hb hne heq2
  obtain ⟨hnda, _⟩ := hcyc a ha
  obtain ⟨hndb, _⟩ := hcyc b hb
  exact hne (sortKey_eq_of_perm
    (List.perm_of_nodup_nodup_toFinset_eq hnda hndb heq2))

/-- Witness for C5 on the two-triangle input: the first emitted cycle is a
genuine simple 3-cycle. -/
theorem C5_cycles_sound_witness :
    (["A", "D", "E"] ∈ detect_cycles (buildGraph dfTwoCycles) 3 5) ∧
    (["A", "D", "E"].Nodup ∧ 3 ≤ (["A", "D", "E"] : List String).length ∧
      (["A", "D", "E"] : List String).length ≤ 5 ∧
      List.Chain' (hasEdge (buildGraph dfTwoCycles)) ["A", "D", "E"] ∧
      ∃ a b, (["A", "D", "E"] : List String).head? = some a ∧
        (["A", "D", "E"] : List String).getLast? = some b ∧
        hasEdge (buildGraph dfTwoCycles) b a) :=
  ⟨by decide, (C5_cycles_sound dfTwoCycles).1 _ (by decide)⟩

theorem applyRing_data_acc (members : List String) (pt : String)
    (st : RingState) :
    (applyRing members pt st).data.map (fun d => d.acc) =
      st.data.map (fun d => d.acc) := by
  simp only [applyRing, List.map_map]
  refine List.map_congr_left ?_
  intro d _
  by_cases h : d.acc ∈ members <;> simp [h]

theorem cycleRingPass_data_acc (cycles : List (List String)) :
    ∀ st : RingState,
    (cycleRingPass cycles st).data.map (fun d => d.acc) =
      st.data.map (fun d => d.acc) := by
  induction cycles with
  | nil => intro st; rfl
  | cons c cs ih =>
    intro st
    simp only [cycleRingPass, List.foldl_cons]
    rw [show List.foldl (fun s c => applyRing c "circular_fund_routing" s)
      (applyRing c "circular_fund_routing" st) cs =
      cycleRingPass cs (applyRing c "circular_fund_routing" st) from rfl]
    rw [ih, applyRing_data_acc]

theorem shellRingPass_data_acc (chains : List ShellChain) :
    ∀ st : RingState,
    (shellRingPass chains st).data.map (fun d => d.acc) =
      st.data.map (fun d => d.acc) := by
  induction chains with
  | nil => intro st; rfl
  | cons c cs ih =>
    intro st
    simp only [shellRingPass, List.foldl_cons]
    rw [show List.foldl (fun s ch =>
        if ch.path.any (fun m => s.mapped.contains m) then s
        else applyRing ch.path "layered_shell_network" s)
      (if c.path.any (fun m => st.mapped.contains m) then st
        else applyRing c.path "layered_shell_network" st) cs =
      shellRingPass cs (if c.path.any (fun m => st.mapped.contains m) then st
        else applyRing c.path "layered_shell_network" st) from rfl]
    rw [ih]
    split
    · rfl
    · rw [applyRing_data_acc]

theorem accountEntry_acc (df : List Tx) (cycles : List (List String))
    (smurf : SmurfResult) (chains : List ShellChain) (acc : String) :
    (accountEntry df cycles smurf chains acc).acc = acc := rfl

theorem accountEntry_type (df : List Tx) (cycles : List (List String))
    (smurf : SmurfResult) (chains : List ShellChain) (acc : String) :
    (accountEntry df cycles smurf chains acc).acc_type =
      get_account_type df acc := rfl

theorem mem_engineAccounts_iff (df : List Tx) (cycles : List (List String))
    (smurf : SmurfResult) (chains : List ShellChain) (acc : String) :
    acc ∈ (engineAccounts df cycles smurf chains).map (fun d => d.acc) ↔
      acc ∈ allAccounts df ∧
        keepAccount (accountEntry df cycles smurf chains acc) = true := by
  unfold engineAccounts
  rw [List.mem_map]
  constructor
  · rintro ⟨d, hd, hdacc⟩
    rw [List.mem_filterMap] at hd
    obtain ⟨a, ha, hfa⟩ := hd
    dsimp only at hfa
    split at hfa
    · rename_i hkeep
      obtain rfl := (Option.some.injEq _ _).mp hfa
      rw [accountEntry_acc] at hdacc
      subst hdacc
      exact ⟨ha, hkeep⟩
    · exact absurd hfa (by simp)
  · rintro ⟨ha, hkeep⟩
    refine ⟨accountEntry df cycles smurf chains acc, ?_, accountEntry_acc _ _ _ _ _⟩
    rw [List.mem_filterMap]
    exact ⟨acc, ha, by rw [if_pos hkeep]⟩

theorem keepAccount_iff (e : AccData) :
    keepAccount e = true ↔
      (if e.acc_type = "merchant" ∨ e.acc_type = "payroll" then 75 < e.score
       else 20 < e.score) := by
  unfold keepAccount
  by_cases hmp : e.acc_type = "merchant" ∨ e.acc_type = "payroll"
  · rw [if_pos hmp]
    by_cases hle : e.score ≤ 75
    · rw [if_pos ⟨hmp, hle⟩]
      constructor
      · intro h
        exact absurd h (by simp)
      · intro h
        exact absurd hle (not_le.mpr h)
    · rw [if_neg (fun hc => hle hc.2)]
      simp only [decide_eq_true_eq]
      constructor
      · intro _
        exact not_le.mp hle
      · intro _
        have h75 := not_le.mp hle
        linarith
  · rw [if_neg hmp, if_neg (fun hc => hmp hc.1)]
    simp

/-- C4: an account of the batch appears in the suspicious_accounts output
exactly when its final score is above 20, except that merchant and payroll
accounts appear only when their final score is above 75. -/
theorem C4_reporting_iff (df : List Tx) (startNodes : List String)
    (acc : String) (hacc : acc ∈ allAccounts df) :
    ((∃ a ∈ (run_full_analysis df startNodes).suspicious_accounts,
        a.account_id = acc) ↔
      (if get_account_type df acc = "merchant" ∨
          get_account_type df acc = "payroll"
        then 75 < accountScore df startNodes acc
        else 20 < accountScore df startNodes acc)) := by
  have hstep : (∃ a ∈ (run_full_analysis df startNodes).suspicious_accounts,
      a.account_id = acc) ↔ acc ∈
        ((shellRingPass (detect_shell_networks df startNodes)
          (cycleRingPass (detect_cycles (buildGraph df) 3 5)
            ⟨[], [], 0, engineAccounts df (detect_cycles (buildGraph df) 3 5)
              (detect_smurfing df)
              (detect_shell_networks df startNodes)⟩)).data.map
          (fun d => d.acc)) := by
    simp only [run_full_analysis, sortSuspicious]
    constructor
    · rintro ⟨a, ha, haacc⟩
      rw [List.mem_insertionSort, List.mem_map] at ha
      obtain ⟨d, hd, rfl⟩ := ha
      rw [List.mem_map]
      exact ⟨d, hd, haacc⟩
    · intro hmem
      rw [List.mem_map] at hmem
      obtain ⟨d, hd, hdacc⟩ := hmem
      refine ⟨⟨d.acc, d.score, d.patterns, d.ring_id⟩, ?_, hdacc⟩
      rw [List.mem_insertionSort, List.mem_map]
      exact ⟨d, hd, rfl⟩
  rw [hstep, shellRingPass_data_acc, cycleRingPass_data_acc]
  rw [show (RingState.mk [] [] 0 (engineAccounts df
      (detect_cycles (buildGraph df) 3 5) (detect_smurfing df)
      (detect_shell_networks df startNodes))).data = engineAccounts df
      (detect_cycles (buildGraph df) 3 5) (detect_smurfing df)
      (detect_shell_networks df startNodes) from rfl]
  rw [mem_engineAccounts_iff, keepAccount_iff, accountEntry_type]
  simp only [hacc, true_and]
  rfl

/-- Witness for C4: in the two-triangle batch the account A is in the batch
and is reported, and the threshold condition evaluates accordingly. -/
theorem C4_reporting_iff_witness :
    ("A" ∈ allAccounts dfTwoCycles) ∧
    ((∃ a ∈ (run_full_analysis dfTwoCycles
        ["A", "B", "C", "D", "E"]).suspicious_accounts,
        a.account_id = "A") ↔
      (if get_account_type dfTwoCycles "A" = "merchant" ∨
          get_account_type dfTwoCycles "A" = "payroll"
        then 75 < accountScore dfTwoCycles ["A", "B", "C", "D", "E"] "A"
        else 20 < accountScore dfTwoCycles ["A", "B", "C", "D", "E"] "A")) :=
  ⟨by decide,
   C4_reporting_iff dfTwoCycles ["A", "B", "C", "D", "E"] "A" (by decide)⟩

/-- C2 fails on the code: with two emitted cycles sharing the account A,
the engine produces two rings whose member lists both contain A. -/
theorem C2_counterexample :
    ValidSample (buildGraph dfTwoCycles) ["A", "B", "C", "D", "E"] ∧
    (run_full_analysis dfTwoCycles ["A", "B", "C", "D", "E"]).fraud_rings.map
      (fun r => r.member_accounts) = [["A", "D", "E"], ["A", "B", "C"]] ∧
    (run_full_analysis dfTwoCycles ["A", "B", "C", "D", "E"]).fraud_rings.map
      (fun r => r.ring_id) = ["RING_001", "RING_002"] ∧
    "A" ∈ (["A", "D", "E"] : List String) ∧
    "A" ∈ (["A", "B", "C"] : List String) := by
  refine ⟨by decide, by decide, by decide, by decide, by decide⟩

theorem applyRing_ring_mem {m : List String} {pt : String} {st : RingState}
    {r : FraudRing} (hr : r ∈ (applyRing m pt st).rings) :
    r ∈ st.rings ∨ (r.member_accounts = m ∧ r.pattern_type = pt) := by
  simp only [applyRing] at hr
  rw [List.mem_append] at hr
  rcases hr with hr | hr
  · exact Or.inl hr
  · obtain rfl : r = _ := by simpa using hr
    exact Or.inr ⟨rfl, rfl⟩

theorem applyRing_mapped_mono {m : List String} {pt : String}
    {st : RingState} {a : String} (ha : a ∈ st.mapped) :
    a ∈ (applyRing m pt st).mapped := by
  simp only [applyRing]
  exact List.mem_append_left _ ha

theorem applyRing_mappedCover {m : List String} {pt : String}
    {st : RingState} (h : MappedCover st) : MappedCover (applyRing m pt st) := by
  intro r hr a ha
  rcases applyRing_ring_mem hr with hr2 | ⟨hm, _⟩
  · exact applyRing_mapped_mono (h r hr2 a ha)
  · simp only [applyRing]
    rw [hm] at ha
    exact List.mem_append_right _ ha

theorem applyRing_pairwise_cycle {m : List String} {st : RingState}
    (hpw : st.rings.Pairwise RingsDisjointWithShell)
    (hall : ∀ r ∈ st.rings, r.pattern_type = "circular_fund_routing") :
    (applyRing m "circular_fund_routing" st).rings.Pairwise
      RingsDisjointWithShell ∧
    (∀ r ∈ (applyRing m "circular_fund_routing" st).rings,
      r.pattern_type = "circular_fund_routing") := by
  constructor
  · simp only [applyRing]
    rw [List.pairwise_append]
    refine ⟨hpw, List.pairwise_singleton _ _, ?_⟩
    intro r1 h1 r2 h2
    obtain rfl : r2 = _ := by simpa using h2
    intro habs
    rcases habs with habs | habs
    · rw [hall r1 h1] at habs
      exact absurd habs (by decide)
    · simp at habs
  · intro r hr
    rcases applyRing_ring_mem hr with hr2 | ⟨_, hp⟩
    · exact hall r hr2
    · exact hp

theorem cycleRingPass_inv (cycles : List (List String)) :
    ∀ st : RingState,
    st.rings.Pairwise RingsDisjointWithShell → MappedCover st →
    (∀ r ∈ st.rings, r.pattern_type = "circular_fund_routing") →
    (cycleRingPass cycles st).rings.Pairwise RingsDisjointWithShell ∧
    MappedCover (cycleRingPass cycles st) ∧
    (∀ r ∈ (cycleRingPass cycles st).rings,
      r.pattern_type = "circular_fund_routing") := by
  induction cycles with
  | nil => exact fun st h1 h2 h3 => ⟨h1, h2, h3⟩
  | cons c cs ih =>
    intro st h1 h2 h3
    simp only [cycleRingPass, List.foldl_cons]
    have hstep := applyRing_pairwise_cycle (m := c) h1 h3
    exact ih (applyRing c "circular_fund_routing" st) hstep.1
      (applyRing_mappedCover h2) hstep.2

theorem shellRingPass_inv (chains : List ShellChain) :
    ∀ st : RingState,
    st.rings.Pairwise RingsDisjointWithShell → MappedCover st →
    (shellRingPass chains st).rings.Pairwise RingsDisjointWithShell := by
  induction chains with
  | nil => exact fun st h1 _ => h1
  | cons ch cs ih =>
    intro st h1 h2
    simp only [shellRingPass, List.foldl_cons]
    by_cases hskip : ch.path.any (fun m => st.mapped.contains m)
    · rw [if_pos hskip]
      exact ih st h1 h2
    · rw [if_neg hskip]
      have hfresh : ∀ b ∈ ch.path, b ∉ st.mapped := by
        intro b hb hbm
        exact hskip (List.any_eq_true.mpr ⟨b, hb, by simpa using hbm⟩)
      refine ih _ ?_ (applyRing_mappedCover h2)
      simp only [applyRing]
      rw [List.pairwise_append]
      refine ⟨h1, List.pairwise_singleton _ _, ?_⟩
      intro r1 hr1 r2 hr2
      obtain rfl : r2 = _ := by simpa using hr2
      intro _ a ha hmem
      exact hfresh a hmem (h2 r1 hr1 a ha)

/-- Amended C2: a layered_shell_network ring never shares an account with
any other ring of the run; only circular_fund_routing rings can overlap. -/
theorem C2_amended_shell_rings_disjoint (df : List Tx)
    (startNodes : List String) :
    ((run_full_analysis df startNodes).fraud_rings).Pairwise
      RingsDisjointWithShell := by
  have hcyc := cycleRingPass_inv (detect_cycles (buildGraph df) 3 5)
    ⟨[], [], 0, engineAccounts df (detect_cycles (buildGraph df) 3 5)
      (detect_smurfing df) (detect_shell_networks df startNodes)⟩
    (List.Pairwise.nil) (fun r hr => absurd hr (List.not_mem_nil r))
    (fun r hr => absurd hr (List.not_mem_nil r))
  have hshell := shellRingPass_inv (detect_shell_networks df startNodes)
    _ hcyc.1 hcyc.2.1
  simpa only [run_full_analysis] using hshell

/-- C7 fails on the code: in the merchant-triangle batch the single ring has
risk_score 92.5 (the mean over the two reported members only), while the
mean over all three members of the ring is 73.33. -/
theorem C7_counterexample :
    ValidSample (buildGraph dfMerchantCycle) (buildGraph dfMerchantCycle).nodes ∧
    (run_full_analysis dfMerchantCycle
      (buildGraph dfMerchantCycle).nodes).fraud_rings.map
      (fun r => r.risk_score) = [185/2] ∧
    (run_full_analysis dfMerchantCycle
      (buildGraph dfMerchantCycle).nodes).fraud_rings.map
      (fun r => claimedRingRisk dfMerchantCycle
        (buildGraph dfMerchantCycle).nodes r) = [7333/100] ∧
    (run_full_analysis dfMerchantCycle
      (buildGraph dfMerchantCycle).nodes).fraud_rings.map
      (fun r => r.member_accounts) = [["M", "B", "C"]] ∧
    (run_full_analysis dfMerchantCycle
      (buildGraph dfMerchantCycle).nodes).suspicious_accounts.map
      (fun a => a.account_id) = ["B", "C"] ∧
    ((185 : ℚ)/2 ≠ 7333/100) := by
  refine ⟨by decide, by decide, by decide, by decide, by decide, by decide⟩

/-- Score lookups are unchanged by the ring passes (only ring_id mutates). -/
theorem applyRing_find_score (m : List String) (pt : String) (st : RingState)
    (a : String) :
    ((applyRing m pt st).data.find? (fun d => decide (d.acc = a))).map
      (fun d => d.score) =
    (st.data.find? (fun d => decide (d.acc = a))).map (fun d => d.score) := by
  simp only [applyRing]
  rw [List.find?_map]
  rw [show ((fun d => decide (d.acc = a)) ∘ fun d : AccData =>
      if m.contains d.acc then
        AccData.mk d.acc d.score d.patterns (some (mkRingId (st.counter + 1)))
          d.acc_type
      else d) = (fun d => decide (d.acc = a)) from ?_]
  · rw [Option.map_map]
    congr 1
    funext d
    by_cases h : d.acc ∈ m <;> simp [h]
  · funext d
    by_cases h : d.acc ∈ m <;> simp [h]

theorem applyRing_rings (m : List String) (pt : String) (st : RingState) :
    (applyRing m pt st).rings = st.rings ++
      [⟨mkRingId (st.counter + 1), m, pt, reportedRingRisk st.data m⟩] := rfl

/-- The appended transactions mention only accounts absent from the batch. -/
def FreshFor (fresh df : List Tx) : Prop :=
  ∀ t ∈ fresh, t.sender_id ∉ allAccounts df ∧ t.receiver_id ∉ allAccounts df

instance (fresh df : List Tx) : Decidable (FreshFor fresh df) := by
  unfold FreshFor; infer_instance

theorem applyRing_riskInv {data0 : List AccData} {m : List String}
    {pt : String} {st : RingState} (h : RiskInv data0 st) :
    RiskInv data0 (applyRing m pt st) := by
  obtain ⟨hlook, hr⟩ := h
  have hfun : (fun a => (st.data.find? (fun d => decide (d.acc = a))).map
      (fun d => d.score)) =
      (fun a => (data0.find? (fun d => decide (d.acc = a))).map
        (fun d => d.score)) := funext hlook
  constructor
  · intro a
    rw [applyRing_find_score]
    exact hlook a
  · intro r hrr
    rw [applyRing_rings, List.mem_append] at hrr
    rcases hrr with h2 | h2
    · exact hr r h2
    · obtain rfl := List.mem_singleton.mp h2
      show reportedRingRisk st.data m = reportedRingRisk data0 m
      simp only [reportedRingRisk]
      rw [hfun]

theorem cycleRingPass_riskInv {data0 : List AccData}
    (cycles : List (List String)) :
    ∀ st : RingState, RiskInv data0 st →
      RiskInv data0 (cycleRingPass cycles st) := by
  induction cycles with
  | nil => exact fun st h => h
  | cons c cs ih =>
    intro st h
    simp only [cycleRingPass, List.foldl_cons]
    exact ih _ (applyRing_riskInv h)

theorem shellRingPass_riskInv {data0 : List AccData}
    (chains : List ShellChain) :
    ∀ st : RingState, RiskInv data0 st →
      RiskInv data0 (shellRingPass chains st) := by
  induction chains with
  | nil => exact fun st h => h
  | cons ch cs ih =>
    intro st h
    simp only [shellRingPass, List.foldl_cons]
    split
    · exact ih st h
    · exact ih _ (applyRing_riskInv h)

/-- Amended C7: every output ring's risk_score is the mean of the stored
suspicion scores of only those members that passed the reporting filter
(0 when none did), capped above at 100 and rounded to two decimals; members
that were filtered out contribute nothing to the mean. -/
theorem C7_amended_ring_risk (df : List Tx) (startNodes : List String) :
    ∀ r ∈ (run_full_analysis df startNodes).fraud_rings,
      r.risk_score = reportedRingRisk
        (engineAccounts df (detect_cycles (buildGraph df) 3 5)
          (detect_smurfing df) (detect_shell_networks df startNodes))
        r.member_accounts := by
  intro r hr
  have hinit : RiskInv
      (engineAccounts df (detect_cycles (buildGraph df) 3 5)
        (detect_smurfing df) (detect_shell_networks df startNodes))
      ⟨[], [], 0, engineAccounts df (detect_cycles (buildGraph df) 3 5)
        (detect_smurfing df) (detect_shell_networks df startNodes)⟩ :=
    ⟨fun a => rfl, by simp⟩
  have hfinal := shellRingPass_riskInv (detect_shell_networks df startNodes) _
    (cycleRingPass_riskInv (detect_cycles (buildGraph df) 3 5) _ hinit)
  refine hfinal.2 r ?_
  simpa only [run_full_analysis] using hr

/-- Witness for amended C7 at the two-triangle batch: the first ring's
stored risk score is the filtered-member mean. -/
theorem C7_amended_ring_risk_witness :
    (FraudRing.mk "RING_001" ["A", "D", "E"] "circular_fund_routing" 98 ∈
      (run_full_analysis dfTwoCycles
        ["A", "B", "C", "D", "E"]).fraud_rings) ∧
    (FraudRing.mk "RING_001" ["A", "D", "E"] "circular_fund_routing"
        98).risk_score =
      reportedRingRisk
        (engineAccounts dfTwoCycles
          (detect_cycles (buildGraph dfTwoCycles) 3 5)
          (detect_smurfing dfTwoCycles)
          (detect_shell_networks dfTwoCycles ["A", "B", "C", "D", "E"]))
        (FraudRing.mk "RING_001" ["A", "D", "E"] "circular_fund_routing"
          98).member_accounts :=
  ⟨by decide,
   C7_amended_ring_risk dfTwoCycles ["A", "B", "C", "D", "E"] _ (by decide)⟩

/-- C8 fails on the code: in the path batch the account B sits in two
recorded chains of equal hop count and its detected_patterns list repeats
the shell tag. -/
theorem C8_counterexample :
    ValidSample (buildGraph dfPath) ["X", "A", "B", "C", "D"] ∧
    (run_full_analysis dfPath ["X", "A", "B", "C", "D"]).suspicious_accounts.map
      (fun a => (a.account_id, a.detected_patterns)) =
      [("B", ["shell_chain_3_hops", "shell_chain_3_hops"]),
       ("A", ["shell_chain_3_hops", "shell_chain_3_hops"]),
       ("C", ["shell_chain_3_hops", "shell_chain_3_hops"])] ∧
    ¬ (["shell_chain_3_hops", "shell_chain_3_hops"] : List String).Nodup := by
  refine ⟨by decide, by decide, by decide⟩

theorem shellFold_patterns (acc : String) (chains : List ShellChain) :
    ∀ bp : List ℚ × List String,
    (chains.foldl (fun bp ch =>
        if ch.path.contains acc then
          (bp.1 ++ (if (pathInterior ch.path).contains acc then
              [RiskWeights.SHELL_ACCOUNT] else []),
            bp.2 ++ [shellTag ch.chain_length])
        else bp) bp).2 =
      bp.2 ++ (chains.filter (fun ch => ch.path.contains acc)).map
        (fun ch => shellTag ch.chain_length) := by
  induction chains with
  | nil => intro bp; simp
  | cons ch cs ih =>
    intro bp
    simp only [List.foldl_cons]
    by_cases hc : ch.path.contains acc
    · rw [if_pos hc]
      rw [ih]
      rw [List.filter_cons_of_pos (by simpa using hc)]
      simp [List.append_assoc]
    · rw [if_neg hc]
      rw [ih]
      rw [List.filter_cons_of_neg (by simpa using hc)]

theorem accountEntry_patterns (df : List Tx) (cycles : List (List String))
    (smurf : SmurfResult) (chains : List ShellChain) (acc : String) :
    ∃ ct st2 : List String, ct.length ≤ 1 ∧ st2.length ≤ 1 ∧
      (accountEntry df cycles smurf chains acc).patterns = ct ++ st2 ++
        (chains.filter (fun ch => ch.path.contains acc)).map
          (fun ch => shellTag ch.chain_length) := by
  have hshell := shellFold_patterns acc chains ([], [])
  simp only [List.nil_append] at hshell
  simp at hshell
  unfold accountEntry
  rcases hf : cycles.find? (fun c => c.contains acc) with _ | c
  all_goals simp only [hf]
  · by_cases hfan : (smurf.fan_in.any (fun r => r.account_id = acc) ∨
        smurf.fan_out.any (fun r => r.account_id = acc))
    · rw [if_pos hfan]
      by_cases hv1 : 1 < (check_redistribution_speed df acc).1
      · rw [if_pos hv1]
        by_cases hv2 : RiskWeights.FAST_PASS_THROUGH ≤
            (check_redistribution_speed df acc).1
        · rw [if_pos hv2]
          exact ⟨[], ["fast_redistribution_smurfing"], by simp, by simp,
            by simp [hshell]⟩
        · rw [if_neg hv2]
          exact ⟨[], ["delayed_redistribution_smurfing"], by simp, by simp,
            by simp [hshell]⟩
      · rw [if_neg hv1]
        exact ⟨[], ["high_volume_account"], by simp, by simp,
          by simp [hshell]⟩
    · rw [if_neg hfan]
      exact ⟨[], [], by simp, by simp, by simp [hshell]⟩
  · by_cases hfan : (smurf.fan_in.any (fun r => r.account_id = acc) ∨
        smurf.fan_out.any (fun r => r.account_id = acc))
    · rw [if_pos hfan]
      by_cases hv1 : 1 < (check_redistribution_speed df acc).1
      · rw [if_pos hv1]
        by_cases hv2 : RiskWeights.FAST_PASS_THROUGH ≤
            (check_redistribution_speed df acc).1
        · rw [if_pos hv2]
          exact ⟨[cycleTag c.length], ["fast_redistribution_smurfing"],
            by simp, by simp, by simp [hshell]⟩
        · rw [if_neg hv2]
          exact ⟨[cycleTag c.length], ["delayed_redistribution_smurfing"],
            by simp, by simp, by simp [hshell]⟩
      · rw [if_neg hv1]
        exact ⟨[cycleTag c.length], ["high_volume_account"], by simp, by simp,
          by simp [hshell]⟩
    · rw [if_neg hfan]
      exact ⟨[cycleTag c.length], [], by simp, by simp, by simp [hshell]⟩

theorem applyRing_data_core (m : List String) (pt : String) (st : RingState) :
    (applyRing m pt st).data.map
      (fun d => (d.acc, d.score, d.patterns, d.acc_type)) =
    st.data.map (fun d => (d.acc, d.score, d.patterns, d.acc_type)) := by
  simp only [applyRing, List.map_map]
  refine List.map_congr_left ?_
  intro d _
  by_cases h : d.acc ∈ m <;> simp [h]

theorem cycleRingPass_data_core (cycles : List (List String)) :
    ∀ st : RingState,
    (cycleRingPass cycles st).data.map
      (fun d => (d.acc, d.score, d.patterns, d.acc_type)) =
    st.data.map (fun d => (d.acc, d.score, d.patterns, d.acc_type)) := by
  induction cycles with
  | nil => intro st; rfl
  | cons c cs ih =>
    intro st
    simp only [cycleRingPass, List.foldl_cons] at ih ⊢
    rw [ih, applyRing_data_core]

theorem shellRingPass_data_core (chains : List ShellChain) :
    ∀ st : RingState,
    (shellRingPass chains st).data.map
      (fun d => (d.acc, d.score, d.patterns, d.acc_type)) =
    st.data.map (fun d => (d.acc, d.score, d.patterns, d.acc_type)) := by
  induction chains with
  | nil => intro st; rfl
  | cons c cs ih =>
    intro st
    simp only [shellRingPass, List.foldl_cons] at ih ⊢
    rw [ih]
    split
    · rfl
    · rw [applyRing_data_core]

/-- Amended C8: in every reported account's detected_patterns list the cycle
tag and the smurfing tag appear at most once each, while the shell tag is
appended once for every recorded chain containing the account, so the same
shell tag repeats whenever two recorded chains with equal hop count share
the account; the list is not de-duplicated. -/
theorem C8_amended_patterns_shape (df : List Tx) (startNodes : List String) :
    ∀ a ∈ (run_full_analysis df startNodes).suspicious_accounts,
      ∃ ct st2 : List String, ct.length ≤ 1 ∧ st2.length ≤ 1 ∧
        a.detected_patterns = ct ++ st2 ++
          ((detect_shell_networks df startNodes).filter
            (fun ch => ch.path.contains a.account_id)).map
            (fun ch => shellTag ch.chain_length) := by
  intro a ha
  simp only [run_full_analysis, sortSuspicious] at ha
  rw [List.mem_insertionSort, List.mem_map] at ha
  obtain ⟨d, hd, rfl⟩ := ha
  have hcore : (d.acc, d.score, d.patterns, d.acc_type) ∈
      (engineAccounts df (detect_cycles (buildGraph df) 3 5)
        (detect_smurfing df) (detect_shell_networks df startNodes)).map
        (fun d => (d.acc, d.score, d.patterns, d.acc_type)) := by
    have e1 : (shellRingPass (detect_shell_networks df startNodes)
        (cycleRingPass (detect_cycles (buildGraph df) 3 5)
          ⟨[], [], 0, engineAccounts df (detect_cycles (buildGraph df) 3 5)
            (detect_smurfing df)
            (detect_shell_networks df startNodes)⟩)).data.map
          (fun d => (d.acc, d.score, d.patterns, d.acc_type)) =
        (engineAccounts df (detect_cycles (buildGraph df) 3 5)
          (detect_smurfing df) (detect_shell_networks df startNodes)).map
          (fun d => (d.acc, d.score, d.patterns, d.acc_type)) := by
      rw [shellRingPass_data_core, cycleRingPass_data_core]
    rw [← e1]
    exact List.mem_map_of_mem _ hd
  rw [List.mem_map] at hcore
  obtain ⟨d0, hd0, hq⟩ := hcore
  unfold engineAccounts at hd0
  rw [List.mem_filterMap] at hd0
  obtain ⟨a0, _, hfa⟩ := hd0
  dsimp only at hfa
  split at hfa
  · obtain rfl := (Option.some.injEq _ _).mp hfa
    have hacc : a0 = d.acc := congrArg (fun q => q.1) hq
    have hpat : (accountEntry df (detect_cycles (buildGraph df) 3 5)
        (detect_smurfing df) (detect_shell_networks df startNodes)
        a0).patterns = d.patterns := congrArg (fun q => q.2.2.1) hq
    obtain ⟨ct, st2, h1, h2, h3⟩ := accountEntry_patterns df
      (detect_cycles (buildGraph df) 3 5) (detect_smurfing df)
      (detect_shell_networks df startNodes) a0
    refine ⟨ct, st2, h1, h2, ?_⟩
    show d.patterns = _
    rw [← hpat, h3, hacc]
  · exact absurd hfa (by simp)

/-- Witness for amended C8 at the path batch. -/
theorem C8_amended_patterns_shape_witness :
    (SuspiciousAccount.mk "B" 72 ["shell_chain_3_hops", "shell_chain_3_hops"]
        (some "RING_001") ∈
      (run_full_analysis dfPath ["X", "A", "B", "C", "D"]).suspicious_accounts) ∧
    (∃ ct st2 : List String, ct.length ≤ 1 ∧ st2.length ≤ 1 ∧
      (SuspiciousAccount.mk "B" 72
          ["shell_chain_3_hops", "shell_chain_3_hops"]
          (some "RING_001")).detected_patterns = ct ++ st2 ++
        ((detect_shell_networks dfPath ["X", "A", "B", "C", "D"]).filter
          (fun ch => ch.path.contains (SuspiciousAccount.mk "B" 72
            ["shell_chain_3_hops", "shell_chain_3_hops"]
            (some "RING_001")).account_id)).map
          (fun ch => shellTag ch.chain_length)) :=
  ⟨by decide,
   C8_amended_patterns_shape dfPath ["X", "A", "B", "C", "D"] _ (by decide)⟩

/-- C9 fails on the code: two transactions over the same ordered pair leave
a single edge in the DiGraph, carrying only the second transaction's
metadata. -/
theorem C9_counterexample :
    (dfDupPair.filter (fun t => t.sender_id = "P" ∧
      t.receiver_id = "Q")).length = 2 ∧
    ((buildGraph dfDupPair).edges.filter (fun e => e.src = "P" ∧
      e.dst = "Q")).length = 1 ∧
    (buildGraph dfDupPair).edges.map
      (fun e => (e.src, e.dst, e.amount, e.timestamp)) =
      [("P", "Q", (200 : ℚ), (3600 : ℚ))] := by
  refine ⟨by decide, by decide, by decide⟩

theorem buildEdges_append_singleton (df : List Tx) (t : Tx) :
    buildEdges (df ++ [t]) = addEdge (buildEdges df) (txEdge t) := by
  simp [buildEdges, List.foldl_append]

theorem filter_map_addEdge_miss (t : Tx) (s r : String)
    (hkey : ¬ (t.sender_id = s ∧ t.receiver_id = r)) :
    ∀ es : List GEdge,
    ((es.map (fun e0 => if e0.src = (txEdge t).src && e0.dst = (txEdge t).dst
        then txEdge t else e0)).filter
      (fun e => decide (e.src = s ∧ e.dst = r))) =
    es.filter (fun e => decide (e.src = s ∧ e.dst = r))
  | [] => rfl
  | e0 :: es => by
    have ih := filter_map_addEdge_miss t s r hkey es
    have hnpt : decide ((txEdge t).src = s ∧ (txEdge t).dst = r) = false := by
      simpa [txEdge] using hkey
    by_cases hk : e0.src = (txEdge t).src ∧ e0.dst = (txEdge t).dst
    · have h1 : (e0.src = (txEdge t).src && e0.dst = (txEdge t).dst) = true := by
        simp [hk.1, hk.2]
      have h3 : decide (e0.src = s ∧ e0.dst = r) = false := by
        have : ¬ (e0.src = s ∧ e0.dst = r) := by
          intro hc
          have : (txEdge t).src = s ∧ (txEdge t).dst = r :=
            ⟨hk.1 ▸ hc.1, hk.2 ▸ hc.2⟩
          simp [this] at hnpt
        simpa using this
      simp only [List.map_cons, List.filter_cons, h1, if_true, hnpt,
        Bool.false_eq_true, if_false, h3, ih]
    · have h1 : (e0.src = (txEdge t).src && e0.dst = (txEdge t).dst) = false := by
        rcases not_and_or.mp hk with h | h <;> simp [h]
      simp only [List.map_cons, List.filter_cons, h1, Bool.false_eq_true,
        if_false, ih]

theorem filter_map_addEdge_hit (t : Tx) (s r : String)
    (hkey : t.sender_id = s ∧ t.receiver_id = r) :
    ∀ es : List GEdge,
    ((es.map (fun e0 => if e0.src = (txEdge t).src && e0.dst = (txEdge t).dst
        then txEdge t else e0)).filter
      (fun e => decide (e.src = s ∧ e.dst = r))) =
    (es.filter (fun e => decide (e.src = s ∧ e.dst = r))).map
      (fun _ => txEdge t)
  | [] => rfl
  | e0 :: es => by
    have ih := filter_map_addEdge_hit t s r hkey es
    have hpt : decide ((txEdge t).src = s ∧ (txEdge t).dst = r) = true := by
      simp [txEdge, hkey.1, hkey.2]
    by_cases hp : e0.src = s ∧ e0.dst = r
    · have h1 : (e0.src = (txEdge t).src && e0.dst = (txEdge t).dst) = true := by
        simp [txEdge, hp.1, hp.2, hkey.1, hkey.2]
      have h3 : decide (e0.src = s ∧ e0.dst = r) = true := by simp [hp]
      simp only [List.map_cons, List.filter_cons, h1, if_true, hpt, h3, ih]
    · have h1 : (e0.src = (txEdge t).src && e0.dst = (txEdge t).dst) = false := by
        have hno : ¬ (e0.src = (txEdge t).src ∧ e0.dst = (txEdge t).dst) := by
          intro hc
          refine hp ⟨?_, ?_⟩
          · rw [hc.1]; simpa [txEdge] using hkey.1
          · rw [hc.2]; simpa [txEdge] using hkey.2
        rcases not_and_or.mp hno with h | h <;> simp [h]
      have h3 : decide (e0.src = s ∧ e0.dst = r) = false := by simpa using hp
      simp only [List.map_cons, List.filter_cons, h1, h3, Bool.false_eq_true,
        if_false, ih]

/-- Amended C9: the graph keeps at most one edge per ordered (sender,
receiver) pair; for any pair, the edge list carries exactly the metadata of
the last transaction over that pair (or no edge if the pair never occurs).
Multi-edges are not preserved. -/
theorem C9_amended_pair_collapses (df : List Tx) (s r : String) :
    (buildGraph df).edges.filter (fun e => decide (e.src = s ∧ e.dst = r)) =
      ((df.filter (fun t => decide (t.sender_id = s ∧
        t.receiver_id = r))).getLast?).toList.map txEdge := by
  show (buildEdges df).filter _ = _
  induction df using List.reverseRecOn with
  | nil => rfl
  | append_singleton df t ih =>
    rw [buildEdges_append_singleton]
    unfold addEdge
    by_cases hq : t.sender_id = s ∧ t.receiver_id = r
    · have hlast : ((df ++ [t]).filter (fun t2 => decide (t2.sender_id = s ∧
          t2.receiver_id = r))).getLast? = some t := by
        rw [List.filter_append,
          show [t].filter (fun t2 => decide (t2.sender_id = s ∧
            t2.receiver_id = r)) = [t] from by simp [hq]]
        exact List.getLast?_concat _
      rw [hlast]
      by_cases hany : (buildEdges df).any (fun e0 =>
          e0.src = (txEdge t).src && e0.dst = (txEdge t).dst)
      · rw [if_pos hany]
        rw [filter_map_addEdge_hit t s r hq, ih]
        rcases hg : ((df.filter (fun t2 => decide (t2.sender_id = s ∧
            t2.receiver_id = r))).getLast?) with _ | t0
        · exfalso
          rw [List.any_eq_true] at hany
          obtain ⟨e0, he0, hp0⟩ := hany
          have hp0b : decide (e0.src = s ∧ e0.dst = r) = true := by
            simp only [txEdge, Bool.and_eq_true, decide_eq_true_eq] at hp0
            simp [hp0.1, hp0.2, hq.1, hq.2]
          have hmem : e0 ∈ (buildEdges df).filter
              (fun e => decide (e.src = s ∧ e.dst = r)) :=
            List.mem_filter.mpr ⟨he0, hp0b⟩
          rw [ih, hg] at hmem
          simp at hmem
        · rw [hg]
          rfl
      · rw [if_neg hany]
        rw [List.filter_append]
        have hnil : (buildEdges df).filter
            (fun e => decide (e.src = s ∧ e.dst = r)) = [] := by
          rw [List.filter_eq_nil_iff]
          intro e0 he0 hp0
          refine absurd (List.any_eq_true.mpr ⟨e0, he0, ?_⟩) hany
          simp only [decide_eq_true_eq] at hp0
          simp [txEdge, hq.1, hq.2, hp0.1, hp0.2]
        rw [hnil]
        rw [show [txEdge t].filter (fun e => decide (e.src = s ∧ e.dst = r)) =
          [txEdge t] from by simp [txEdge, hq.1, hq.2]]
        rfl
    · have hrhs : ((df ++ [t]).filter (fun t2 => decide (t2.sender_id = s ∧
          t2.receiver_id = r))) = df.filter
            (fun t2 => decide (t2.sender_id = s ∧ t2.receiver_id = r)) := by
        rw [List.filter_append,
          show [t].filter (fun t2 => decide (t2.sender_id = s ∧
            t2.receiver_id = r)) = [] from by simp [hq], List.append_nil]
      rw [hrhs]
      by_cases hany : (buildEdges df).any (fun e0 =>
          e0.src = (txEdge t).src && e0.dst = (txEdge t).dst)
      · rw [if_pos hany]
        rw [filter_map_addEdge_miss t s r hq]
        exact ih
      · rw [if_neg hany]
        rw [List.filter_append]
        rw [show [txEdge t].filter (fun e => decide (e.src = s ∧ e.dst = r)) =
          [] from by simp [txEdge, hq], List.append_nil]
        exact ih

set_option maxHeartbeats 4000000 in
/-- C10 fails on the code: appending 49 fresh-account transactions pushes
the node count past the 100-node shell start sample, a valid sample then
misses the only productive start X, and the previously reported account A
falls from score 60 to score 0. -/
theorem C10_counterexample :
    FreshFor freshTxs dfChain ∧
    ValidSample (buildGraph dfChain) ["X", "A", "B", "C"] ∧
    ValidSample (buildGraph dfChainFresh) startsNoX ∧
    accountScore dfChain ["X", "A", "B", "C"] "A" = 60 ∧
    ((20 : ℚ) < 60) ∧
    accountScore dfChainFresh startsNoX "A" = 0 ∧
    ¬ ((20 : ℚ) < 0) := by
  refine ⟨by decide, by decide, by decide, by decide, by decide, by decide,
    by decide⟩

theorem incomingTx_append_fresh {df fresh : List Tx} {acc : String}
    (hfresh : FreshFor fresh df) (hacc : acc ∈ allAccounts df) :
    incomingTx (df ++ fresh) acc = incomingTx df acc := by
  unfold incomingTx
  rw [List.filter_append]
  rw [show fresh.filter (fun t => decide (t.receiver_id = acc)) = [] from ?_]
  · rw [List.append_nil]
  · rw [List.filter_eq_nil_iff]
    intro t ht
    simp only [decide_eq_true_eq]
    intro hc
    exact (hfresh t ht).2 (hc ▸ hacc)

theorem outgoingTx_append_fresh {df fresh : List Tx} {acc : String}
    (hfresh : FreshFor fresh df) (hacc : acc ∈ allAccounts df) :
    outgoingTx (df ++ fresh) acc = outgoingTx df acc := by
  unfold outgoingTx
  rw [List.filter_append]
  rw [show fresh.filter (fun t => decide (t.sender_id = acc)) = [] from ?_]
  · rw [List.append_nil]
  · rw [List.filter_eq_nil_iff]
    intro t ht
    simp only [decide_eq_true_eq]
    intro hc
    exact (hfresh t ht).1 (hc ▸ hacc)

theorem merchant_velocity_append_fresh {df fresh : List Tx} {acc : String}
    (hfresh : FreshFor fresh df) (hacc : acc ∈ allAccounts df) (role : String) :
    is_merchant_velocity (df ++ fresh) acc role =
      is_merchant_velocity df acc role := by
  unfold is_merchant_velocity
  rw [incomingTx_append_fresh hfresh hacc, outgoingTx_append_fresh hfresh hacc]

theorem payroll_pattern_append_fresh {df fresh : List Tx} {acc : String}
    (hfresh : FreshFor fresh df) (hacc : acc ∈ allAccounts df) :
    is_payroll_pattern (df ++ fresh) acc = is_payroll_pattern df acc := by
  unfold is_payroll_pattern
  rw [outgoingTx_append_fresh hfresh hacc]

theorem diverse_sources_append_fresh {df fresh : List Tx} {acc : String}
    (hfresh : FreshFor fresh df) (hacc : acc ∈ allAccounts df) :
    has_diverse_sources (df ++ fresh) acc = has_diverse_sources df acc := by
  unfold has_diverse_sources
  rw [incomingTx_append_fresh hfresh hacc]

theorem consistent_amounts_append_fresh {df fresh : List Tx} {acc : String}
    (hfresh : FreshFor fresh df) (hacc : acc ∈ allAccounts df) :
    has_consistent_amounts (df ++ fresh) acc =
      has_consistent_amounts df acc := by
  unfold has_consistent_amounts
  rw [outgoingTx_append_fresh hfresh hacc]

/-- Amended C10: appending transactions that involve only fresh accounts
preserves every existing account's classification, its fan-in and fan-out
hits, and its redistribution-speed result; the claim fails only through the
cycle and shell-chain detectors, whose hub threshold grows with the account
count and whose start sampling is capped at 100 nodes. -/
theorem C10_amended_fresh_preserves_local (df fresh : List Tx) (acc : String)
    (hfresh : FreshFor fresh df) (hacc : acc ∈ allAccounts df) :
    get_account_type (df ++ fresh) acc = get_account_type df acc ∧
    ((∃ r ∈ (detect_smurfing (df ++ fresh)).fan_in, r.account_id = acc) ↔
      (∃ r ∈ (detect_smurfing df).fan_in, r.account_id = acc)) ∧
    ((∃ r ∈ (detect_smurfing (df ++ fresh)).fan_out, r.account_id = acc) ↔
      (∃ r ∈ (detect_smurfing df).fan_out, r.account_id = acc)) ∧
    check_redistribution_speed (df ++ fresh) acc =
      check_redistribution_speed df acc := by
  refine ⟨?_, ?_, ?_, ?_⟩
  · unfold get_account_type
    simp only [incomingTx_append_fresh hfresh hacc,
      outgoingTx_append_fresh hfresh hacc,
      merchant_velocity_append_fresh hfresh hacc,
      payroll_pattern_append_fresh hfresh hacc,
      diverse_sources_append_fresh hfresh hacc,
      consistent_amounts_append_fresh hfresh hacc]
  · rw [(smurf_hits_iff (df ++ fresh) acc).1, (smurf_hits_iff df acc).1,
      incomingTx_append_fresh hfresh hacc]
  · rw [(smurf_hits_iff (df ++ fresh) acc).2.1, (smurf_hits_iff df acc).2.1,
      outgoingTx_append_fresh hfresh hacc]
  · unfold check_redistribution_speed
    rw [incomingTx_append_fresh hfresh hacc, outgoingTx_append_fresh hfresh hacc]

/-- Witness for amended C10 at the chain batch with fresh transactions. -/
theorem C10_amended_fresh_preserves_local_witness :
    FreshFor freshTxs dfChain ∧ "A" ∈ allAccounts dfChain ∧
    (get_account_type (dfChain ++ freshTxs) "A" =
        get_account_type dfChain "A" ∧
      ((∃ r ∈ (detect_smurfing (dfChain ++ freshTxs)).fan_in,
          r.account_id = "A") ↔
        (∃ r ∈ (detect_smurfing dfChain).fan_in, r.account_id = "A")) ∧
      ((∃ r ∈ (detect_smurfing (dfChain ++ freshTxs)).fan_out,
          r.account_id = "A") ↔
        (∃ r ∈ (detect_smurfing dfChain).fan_out, r.account_id = "A")) ∧
      check_redistribution_speed (dfChain ++ freshTxs) "A" =
        check_redistribution_speed dfChain "A") :=
  ⟨by decide, by decide,
   C10_amended_fresh_preserves_local dfChain freshTxs "A" (by decide)
     (by decide)⟩

set_option maxHeartbeats 4000000 in
/-- C3 evidence: on the path batch, two valid outcomes of the random start
sample of detect_shell_networks yield different fraud_rings (the two
equal-priority chains are discovered in different orders, and the first one
claims the ring), so two runs on the same input need not produce identical
envelopes. -/
theorem C3_sampling_nondeterminism :
    ValidSample (buildGraph dfPath) ["X", "A", "B", "C", "D"] ∧
    ValidSample (buildGraph dfPath) ["A", "X", "B", "C", "D"] ∧
    (run_full_analysis dfPath ["X", "A", "B", "C", "D"]).fraud_rings.map
      (fun r => r.member_accounts) = [["X", "A", "B", "C"]] ∧
    (run_full_analysis dfPath ["A", "X", "B", "C", "D"]).fraud_rings.map
      (fun r => r.member_accounts) = [["A", "B", "C", "D"]] ∧
    (run_full_analysis dfPath ["X", "A", "B", "C", "D"]).fraud_rings ≠
      (run_full_analysis dfPath ["A", "X", "B", "C", "D"]).fraud_rings := by
  have h1 : (run_full_analysis dfPath
      ["X", "A", "B", "C", "D"]).fraud_rings.map
      (fun r => r.member_accounts) = [["X", "A", "B", "C"]] := by decide
  have h2 : (run_full_analysis dfPath
      ["A", "X", "B", "C", "D"]).fraud_rings.map
      (fun r => r.member_accounts) = [["A", "B", "C", "D"]] := by decide
  refine ⟨by decide, by decide, h1, h2, ?_⟩
  intro heq
  rw [heq] at h1
  rw [h2] at h1
  exact absurd h1 (by decide)
